import Mathlib

/-!
Primary/backup replicated key-value store: view service and replicas.

Shallow embedding of `viewservice/server_impl.go`, `pbservice/server_impl.go`
and `pbservice/client_impl.go`.

Conventions of the embedding

* A Go `map[K]V` is an association list (`GoMap`); the first binding of a key is
  the live one. `lookup` is `m[k]` with the comma-ok result, `store` is
  `m[k] = v`, `len` is `len(m)` (the number of distinct keys).
* Go's `range` over a map yields the keys in an unspecified order. Every loop
  takes that order as an explicit argument `order`; the loop visits the keys of
  `order` that are bound in the map.
* Time is an `Int` (nanoseconds). A handler runs under the mutex at one
  instant `now`: `time.Now()` is `now` and `time.Since(t)` is `now - t`.
* `uint` is a `Nat` with `Viewnum++` computed modulo `2 ^ 64`.
* A nil-pointer dereference (`vs.impl.servers[b].viewNum` for an unknown `b`)
  panics: the handler returns `none`.
-/

/-- Go map as an association list; the first binding of a key is the live one. -/
abbrev GoMap (κ ν : Type) := List (κ × ν)

namespace GoMap

variable {κ ν : Type} [DecidableEq κ]

/-- The comma-ok map read `v, ok := m[k]`. -/
def lookup : GoMap κ ν → κ → Option ν
  | [], _ => none
  | (k', v) :: rest, k => if k' = k then some v else lookup rest k

/-- The map write `m[k] = v`. -/
def store : GoMap κ ν → κ → ν → GoMap κ ν
  | [], k, v => [(k, v)]
  | (k', v') :: rest, k, v =>
    if k' = k then (k, v) :: rest else (k', v') :: store rest k v

/-- The keys bound in the map. -/
def keys (m : GoMap κ ν) : List κ := m.map Prod.fst

/-- Go's `len(m)`: the number of distinct keys. -/
def len (m : GoMap κ ν) : Nat := (keys m).dedup.length

end GoMap

namespace viewservice

/-- Modelled from the spec: the `View` struct of `viewservice/common.go`
(absent from the sources), spec section 3: `{Viewnum, Primary, Backup}`. -/
structure View where
  Viewnum : Nat
  Primary : String
  Backup : String
deriving DecidableEq, Repr

/-- Modelled from the spec: `PingArgs` of `viewservice/common.go`, spec section 6:
`VS.Ping` takes `{Me, Viewnum}`. -/
structure PingArgs where
  Me : String
  Viewnum : Nat
deriving DecidableEq, Repr

/-- Modelled from the spec: `PingReply` of `viewservice/common.go`, spec section 6:
`VS.Ping` replies `{View}`. -/
structure PingReply where
  View : View
deriving DecidableEq, Repr

/-- The state of each key-value server (`serverState`). -/
structure serverState where
  lastPing : Int
  viewNum : Nat
deriving DecidableEq, Repr

/-- Additions to the ViewServer state (`ViewServerImpl`, without the mutex). -/
structure ViewServerImpl where
  currentView : View
  servers : GoMap String serverState
  acknowledged : Bool
deriving DecidableEq, Repr

/-- The state set up by `initImpl`. -/
def initImpl : ViewServerImpl :=
  { currentView := { Viewnum := 0, Primary := "", Backup := "" }
    servers := []
    acknowledged := true }

/-- The statement `Viewnum++` on a `uint`. -/
def uintIncr (n : Nat) : Nat := (n + 1) % 2 ^ 64

/-- The guarded increment
`if !incrementedView { Viewnum++; incrementedView = true }`. -/
def bumpView (v : View) (incrementedView : Bool) : View :=
  if incrementedView then v else { v with Viewnum := uintIncr v.Viewnum }

/-- The test `time.Since(lastPing) > DeadPings*PingInterval`. The two constants
live in `viewservice/common.go` and are parameters here. -/
def expired (DeadPings PingInterval now lastPing : Int) : Bool :=
  decide (now - lastPing > DeadPings * PingInterval)

/-- The loop `for s, st := range m { if p s st { ...; break } }`: the first key,
in the order `order` in which `range` yields them, whose entry satisfies `p`. -/
def rangeFind (m : GoMap String serverState) (p : String → serverState → Bool) :
    List String → Option String
  | [] => none
  | k :: rest =>
    match m.lookup k with
    | some st => if p k st then some k else rangeFind m p rest
    | none => rangeFind m p rest

/-- Lines 45-64 of `Ping`: record the ping in the liveness map. -/
def pingRecord (vs : ViewServerImpl) (args : PingArgs) (now : Int) : ViewServerImpl :=
  { vs with servers := vs.servers.store args.Me { lastPing := now, viewNum := args.Viewnum } }

/-- Lines 66-80 of `Ping`: the very first ping from the very first server.
Returns the state and the flag `incrementedView`. -/
def pingBootstrap (vs : ViewServerImpl) (args : PingArgs) : ViewServerImpl × Bool :=
  if args.Viewnum = 0 then
    if vs.servers.len = 1 ∧ vs.acknowledged = true then
      ({ vs with
          currentView := bumpView { vs.currentView with Primary := args.Me } false
          acknowledged := false }, true)
    else (vs, false)
  else (vs, false)

/-- Lines 82-85 of `Ping`: the primary acknowledging the current view. -/
def pingAck (vs : ViewServerImpl) (args : PingArgs) : ViewServerImpl :=
  if args.Me = vs.currentView.Primary ∧ args.Viewnum = vs.currentView.Viewnum then
    { vs with acknowledged := true }
  else vs

/-- Lines 94-111 of `Ping`: if the primary is dead or restarted, promote an
initialised backup. `none` is the nil dereference of an unknown backup. -/
def pingPromote (DeadPings PingInterval : Int) (vs : ViewServerImpl)
    (primary : serverState) (now : Int) (incrementedView : Bool) :
    Option (ViewServerImpl × Bool) :=
  if expired DeadPings PingInterval now primary.lastPing = true ∨ primary.viewNum = 0 then
    if vs.currentView.Backup ≠ "" then
      match vs.servers.lookup vs.currentView.Backup with
      | none => none
      | some backup =>
        if backup.viewNum > 0 then
          some ({ vs with
                  currentView :=
                    bumpView { vs.currentView with
                                Primary := vs.currentView.Backup, Backup := "" }
                      incrementedView
                  acknowledged := false }, true)
        else some (vs, incrementedView)
    else some (vs, incrementedView)
  else some (vs, incrementedView)

/-- Lines 113-139 of `Ping`: drop a dead backup, else fill an empty backup slot
with the first alive server other than the primary that `range` yields. -/
def pingBackup (DeadPings PingInterval : Int) (vs : ViewServerImpl) (now : Int)
    (order : List String) (incrementedView : Bool) : Option (ViewServerImpl × Bool) :=
  if vs.currentView.Backup ≠ "" then
    match vs.servers.lookup vs.currentView.Backup with
    | none => none
    | some backup =>
      if expired DeadPings PingInterval now backup.lastPing = true then
        some ({ vs with
                currentView := bumpView { vs.currentView with Backup := "" } incrementedView
                acknowledged := false }, true)
      else some (vs, incrementedView)
  else
    match rangeFind vs.servers
        (fun s sState => decide (s ≠ vs.currentView.Primary) &&
          !expired DeadPings PingInterval now sState.lastPing) order with
    | some s =>
      some ({ vs with
              currentView := bumpView { vs.currentView with Backup := s } incrementedView
              acknowledged := false }, true)
    | none => some (vs, incrementedView)

/-- Lines 87-143 of `Ping`: only progress the view if it is acknowledged. -/
def pingAdvance (DeadPings PingInterval : Int) (vs : ViewServerImpl) (now : Int)
    (order : List String) (incrementedView : Bool) : Option ViewServerImpl :=
  if vs.acknowledged = true then
    match vs.servers.lookup vs.currentView.Primary with
    | some primary =>
      match pingPromote DeadPings PingInterval vs primary now incrementedView with
      | none => none
      | some (vs1, inc1) =>
        match pingBackup DeadPings PingInterval vs1 now order inc1 with
        | none => none
        | some (vs2, _) => some vs2
    | none => some vs
  else some vs

/-- The server `Ping()` RPC handler: the new state and the reply, or `none`
when the handler panics. `order` is the order in which the `range` of line 125
yields the keys of `vs.impl.servers`. -/
def Ping (DeadPings PingInterval : Int) (vs : ViewServerImpl) (args : PingArgs)
    (now : Int) (order : List String) : Option (ViewServerImpl × PingReply) :=
  let vs0 := pingRecord vs args now
  let boot := pingBootstrap vs0 args
  let vs2 := pingAck boot.1 args
  match pingAdvance DeadPings PingInterval vs2 now order boot.2 with
  | none => none
  | some vs3 => some (vs3, { View := vs3.currentView })

/-- The idle-server search of `tick` (lines 187-195, 217-225, 240-249): a server
that is neither primary nor backup and is alive; `needInit` adds the test
`serverState.viewNum > 0` of line 245. Starts from `idleServer := ""`. -/
def idleServer (DeadPings PingInterval : Int) (vs : ViewServerImpl) (now : Int)
    (needInit : Bool) (order : List String) : String :=
  (rangeFind vs.servers
    (fun server st => decide (server ≠ vs.currentView.Primary) &&
      decide (server ≠ vs.currentView.Backup) &&
      !expired DeadPings PingInterval now st.lastPing &&
      (!needInit || decide (st.viewNum > 0))) order).getD ""

/-- Lines 183-211 of `tick`: only the primary failed. -/
def tickPrimaryFailed (DeadPings PingInterval : Int) (vs : ViewServerImpl)
    (primary backup : serverState) (now : Int) (order : List String)
    (incrementedView : Bool) : ViewServerImpl × Bool :=
  if expired DeadPings PingInterval now primary.lastPing = true ∧
      expired DeadPings PingInterval now backup.lastPing = false then
    if backup.viewNum > 0 then
      ({ vs with
          currentView :=
            bumpView { vs.currentView with
                        Primary := vs.currentView.Backup
                        Backup := idleServer DeadPings PingInterval vs now false order }
              incrementedView
          acknowledged := false }, true)
    else (vs, incrementedView)
  else (vs, incrementedView)

/-- Lines 213-234 of `tick`: only the backup failed. -/
def tickBackupFailed (DeadPings PingInterval : Int) (vs : ViewServerImpl)
    (primary backup : serverState) (now : Int) (order : List String)
    (incrementedView : Bool) : ViewServerImpl × Bool :=
  if expired DeadPings PingInterval now backup.lastPing = true ∧
      expired DeadPings PingInterval now primary.lastPing = false then
    ({ vs with
        currentView :=
          bumpView { vs.currentView with
                      Backup := idleServer DeadPings PingInterval vs now false order }
            incrementedView
        acknowledged := false }, true)
  else (vs, incrementedView)

/-- Lines 236-259 of `tick`: both the primary and the backup failed. -/
def tickBothFailed (DeadPings PingInterval : Int) (vs : ViewServerImpl)
    (primary backup : serverState) (now : Int) (order : List String)
    (incrementedView : Bool) : ViewServerImpl × Bool :=
  if expired DeadPings PingInterval now backup.lastPing = true ∧
      expired DeadPings PingInterval now primary.lastPing = true then
    ({ vs with
        currentView :=
          bumpView { vs.currentView with
                      Primary := idleServer DeadPings PingInterval vs now true order
                      Backup := "" }
            incrementedView
        acknowledged := false }, true)
  else (vs, incrementedView)

/-- The periodic `tick()`. `order1`, `order2`, `order3` are the orders in which
the three `range` loops (lines 189, 219, 242) yield the keys. -/
def tick (DeadPings PingInterval : Int) (vs : ViewServerImpl) (now : Int)
    (order1 order2 order3 : List String) : ViewServerImpl :=
  match vs.servers.lookup vs.currentView.Primary with
  | some primary =>
    match vs.servers.lookup vs.currentView.Backup with
    | some backup =>
      if vs.acknowledged = true then
        let r1 := tickPrimaryFailed DeadPings PingInterval vs primary backup now order1 false
        let r2 := tickBackupFailed DeadPings PingInterval r1.1 primary backup now order2 r1.2
        let r3 := tickBothFailed DeadPings PingInterval r2.1 primary backup now order3 r2.2
        r3.1
      else vs
    | none => vs
  | none => vs

/-- One step of the view server: a `Ping` from a non-empty server id that
returns, or a `tick`, at any instant and with any iteration order. -/
inductive Step (DeadPings PingInterval : Int) : ViewServerImpl → ViewServerImpl → Prop
  | ping (vs : ViewServerImpl) (args : PingArgs) (now : Int) (order : List String)
      (vs1 : ViewServerImpl) (reply : PingReply) (hme : args.Me ≠ "")
      (h : Ping DeadPings PingInterval vs args now order = some (vs1, reply)) :
      Step DeadPings PingInterval vs vs1
  | tick (vs : ViewServerImpl) (now : Int) (order1 order2 order3 : List String) :
      Step DeadPings PingInterval vs (tick DeadPings PingInterval vs now order1 order2 order3)

/-- The states reachable from the initial state by `Ping` and `tick` steps. -/
inductive Reachable (DeadPings PingInterval : Int) : ViewServerImpl → Prop
  | init : Reachable DeadPings PingInterval initImpl
  | step (vs vs1 : ViewServerImpl) (hr : Reachable DeadPings PingInterval vs)
      (hs : Step DeadPings PingInterval vs vs1) : Reachable DeadPings PingInterval vs1

/-- The server `s` has an entry in the liveness map. -/
def Known (vs : ViewServerImpl) (s : String) : Prop := (vs.servers.lookup s).isSome = true

/-- The role invariant of the view server: the empty id is not a known server,
and a non-empty backup is a known server, next to a known primary that differs
from it. -/
def RolesOK (vs : ViewServerImpl) : Prop :=
  vs.servers.lookup "" = none ∧
  (vs.currentView.Backup ≠ "" →
    Known vs vs.currentView.Backup ∧ Known vs vs.currentView.Primary ∧
      vs.currentView.Primary ≠ vs.currentView.Backup)

/-- Bookkeeping of the flag `incrementedView` against the view `v0` at entry:
either nothing was incremented and the view is still `v0`, or the view number
was incremented once and the view is unacknowledged. -/
def Tracked (v0 : View) (vs : ViewServerImpl) (inc : Bool) : Prop :=
  (inc = false ∧ vs.currentView = v0) ∨
  (inc = true ∧ vs.currentView.Viewnum = uintIncr v0.Viewnum ∧ vs.acknowledged = false)

/-- A step of the view server from `old` to `new` is a single increment: the
view is unchanged, or `Viewnum` grew by exactly one and the new view is
unacknowledged; `Viewnum` does not decrease, and `Primary`/`Backup` change only
together with `Viewnum`. -/
def ViewStep (old new : ViewServerImpl) : Prop :=
  (new.currentView = old.currentView ∨
    (new.currentView.Viewnum = old.currentView.Viewnum + 1 ∧ new.acknowledged = false)) ∧
  old.currentView.Viewnum ≤ new.currentView.Viewnum ∧
  ((new.currentView.Primary ≠ old.currentView.Primary ∨
      new.currentView.Backup ≠ old.currentView.Backup) →
    new.currentView.Viewnum ≠ old.currentView.Viewnum)

/-- The `tick` of the spec's words (section 4.1: "re-evaluates the same rules
(except bootstrap)"): the rule evaluation of `Ping`, lines 87-143, run on the
state as it is, with no view number incremented yet. To be compared with `tick`. -/
def tickAsSpecified (DeadPings PingInterval : Int) (vs : ViewServerImpl) (now : Int)
    (order : List String) : Option ViewServerImpl :=
  pingAdvance DeadPings PingInterval vs now order false

/-- The primary invariant of the view server: a non-empty primary is a known
server, and an empty primary occurs only in the empty view `{0, "", ""}` or
when two distinct servers are known. -/
def PrimaryOK (vs : ViewServerImpl) : Prop :=
  (vs.currentView.Primary ≠ "" → Known vs vs.currentView.Primary) ∧
  (vs.currentView.Primary = "" →
    vs.currentView = { Viewnum := 0, Primary := "", Backup := "" } ∨
      ∃ a b, Known vs a ∧ Known vs b ∧ a ≠ b)

end viewservice

namespace pbservice

/-- Modelled from the spec: the `Err` string type of `pbservice/common.go`
(absent from the sources), spec section 6: `Err` takes values from
`OK`, `ErrNoKey`, `ErrWrongServer`; a reply that was never filled in carries
the zero value `""`. -/
abbrev Err := String

/-- Modelled from the spec: the constant `OK` of `pbservice/common.go`. -/
def OK : Err := "OK"

/-- Modelled from the spec: the constant `ErrNoKey` of `pbservice/common.go`. -/
def ErrNoKey : Err := "ErrNoKey"

/-- Modelled from the spec: the constant `ErrWrongServer` of `pbservice/common.go`. -/
def ErrWrongServer : Err := "ErrWrongServer"

/-- Additional state in the arguments of the PutAppend RPC (`rpcs_impl.go`). -/
structure PutAppendArgsImpl where
  ClientID : Int
  RequestID : Int
  Operation : String
deriving DecidableEq, Repr

/-- Additional state in the arguments of the Get RPC (`rpcs_impl.go`). -/
structure GetArgsImpl where
  ClientID : Int
  RequestID : Int
deriving DecidableEq, Repr

/-- Modelled from the spec: `PutAppendArgs` of `pbservice/common.go`, spec
section 6, with the fields the handlers read. -/
structure PutAppendArgs where
  Key : String
  Value : String
  Impl : PutAppendArgsImpl
deriving DecidableEq, Repr

/-- Modelled from the spec: `PutAppendReply` of `pbservice/common.go`. -/
structure PutAppendReply where
  Err : Err
deriving DecidableEq, Repr

/-- Modelled from the spec: `GetArgs` of `pbservice/common.go`. -/
structure GetArgs where
  Key : String
  Impl : GetArgsImpl
deriving DecidableEq, Repr

/-- Modelled from the spec: `GetReply` of `pbservice/common.go`. -/
structure GetReply where
  Err : Err
  Value : String
deriving DecidableEq, Repr

/-- Arguments of the ForwardDatabase RPC (`rpcs_impl.go`). -/
structure ForwardDatabaseArgs where
  Data : GoMap String String
deriving DecidableEq, Repr

/-- Reply of the ForwardDatabase RPC (`rpcs_impl.go`). -/
structure ForwardDatabaseReply where
  Err : Err
deriving DecidableEq, Repr

/-- Arguments of the ForwardPut RPC (`rpcs_impl.go`). -/
structure ForwardPutArgs where
  ClientID : Int
  RequestID : Int
  Operation : String
  Key : String
  Value : String
deriving DecidableEq, Repr

/-- Reply of the ForwardPut RPC (`rpcs_impl.go`). -/
structure ForwardPutReply where
  Err : Err
deriving DecidableEq, Repr

/-- Additions to the PBServer state (`PBServerImpl`). -/
structure PBServerImpl where
  kvMap : GoMap String String
  Viewnum : Nat
  Primary : String
  Backup : String
  LastRequestProcessed : GoMap Int Int
deriving DecidableEq, Repr

/-- The replica: its own name `pb.me` and the state `pb.impl`. -/
structure PBServer where
  me : String
  impl : PBServerImpl
deriving DecidableEq, Repr

/-- The state set up by `initImpl`. -/
def PBServer.initImpl (me : String) : PBServer :=
  { me := me
    impl := { kvMap := [], Viewnum := 0, Primary := "", Backup := "",
              LastRequestProcessed := [] } }

/-- The local write of `PutAppend` (lines 137-148 and 165-176) and of
`ForwardPut` (lines 323-334): `Put` overwrites, `Append` concatenates onto the
current value or stores the value when the key is absent, any other operation
leaves the map alone. -/
def applyWrite (kvMap : GoMap String String) (op key value : String) :
    GoMap String String :=
  if op = "Put" then kvMap.store key value
  else if op = "Append" then
    match kvMap.lookup key with
    | some curr => kvMap.store key (curr ++ value)
    | none => kvMap.store key value
  else kvMap

/-- The map read `pb.impl.LastRequestProcessed[clientID]`: the zero value for an
absent client. -/
def lastRequest (pb : PBServer) (clientID : Int) : Int :=
  (pb.impl.LastRequestProcessed.lookup clientID).getD 0

/-- The server `Get()` RPC handler. `realView` is the result of
`pb.vs.Ping(pb.impl.Viewnum)` (`none` when it returns an error, in which case
the handler returns that error and no reply). -/
def PBServer.Get (pb : PBServer) (args : GetArgs) (realView : Option viewservice.View) :
    PBServer × Option GetReply :=
  match realView with
  | none => (pb, none)
  | some realView =>
    if pb.me ≠ realView.Primary then
      (pb, some { Err := ErrWrongServer, Value := "" })
    else
      match pb.impl.LastRequestProcessed.lookup args.Impl.ClientID with
      | some lastReq =>
        if lastReq ≥ args.Impl.RequestID then
          (pb, some { Err := OK, Value := (pb.impl.kvMap.lookup args.Key).getD "" })
        else
          ({ pb with impl := { pb.impl with
              LastRequestProcessed :=
                pb.impl.LastRequestProcessed.store args.Impl.ClientID args.Impl.RequestID } },
            match pb.impl.kvMap.lookup args.Key with
            | some val => some { Err := OK, Value := val }
            | none => some { Err := ErrNoKey, Value := "" })
      | none =>
        ({ pb with impl := { pb.impl with
            LastRequestProcessed :=
              pb.impl.LastRequestProcessed.store args.Impl.ClientID args.Impl.RequestID } },
          match pb.impl.kvMap.lookup args.Key with
          | some val => some { Err := OK, Value := val }
          | none => some { Err := ErrNoKey, Value := "" })

/-- The arguments `fwdArgs` that `PutAppend` forwards (lines 123-129). -/
def forwardArgs (args : PutAppendArgs) : ForwardPutArgs :=
  { ClientID := args.Impl.ClientID
    RequestID := args.Impl.RequestID
    Operation := args.Impl.Operation
    Key := args.Key
    Value := args.Value }

/-- Lines 137-150 and 165-179 of `PutAppend`: write locally and record the
request as processed. -/
def applyLocal (pb : PBServer) (args : PutAppendArgs) : PBServer :=
  { pb with impl := { pb.impl with
      kvMap := applyWrite pb.impl.kvMap args.Impl.Operation args.Key args.Value
      LastRequestProcessed :=
        pb.impl.LastRequestProcessed.store args.Impl.ClientID args.Impl.RequestID } }

/-- The server `PutAppend()` RPC handler. `call srv fwdArgs` is what the reply
variable `fpReply` holds after `call(srv, "PBServer.ForwardPut", fwdArgs, &fpReply)`
(the zero reply when the transport fails). -/
def PBServer.PutAppend (pb : PBServer) (args : PutAppendArgs)
    (call : String → ForwardPutArgs → ForwardPutReply) : PBServer × PutAppendReply :=
  if pb.me ≠ pb.impl.Primary then (pb, { Err := ErrWrongServer })
  else if lastRequest pb args.Impl.ClientID = args.Impl.RequestID then (pb, { Err := OK })
  else if pb.impl.Backup ≠ "" then
    let fpReply := call pb.impl.Backup (forwardArgs args)
    if fpReply.Err = OK then (applyLocal pb args, { Err := OK })
    else (pb, { Err := fpReply.Err })
  else (applyLocal pb args, { Err := OK })

/-- RPC handler for the ForwardDatabase RPC. -/
def PBServer.ForwardDatabase (pb : PBServer) (args : ForwardDatabaseArgs) :
    PBServer × ForwardDatabaseReply :=
  if pb.me ≠ pb.impl.Backup then (pb, { Err := ErrWrongServer })
  else ({ pb with impl := { pb.impl with kvMap := args.Data } }, { Err := OK })

/-- RPC handler for the ForwardPut RPC. -/
def PBServer.ForwardPut (pb : PBServer) (args : ForwardPutArgs) :
    PBServer × ForwardPutReply :=
  if pb.me ≠ pb.impl.Backup then (pb, { Err := ErrWrongServer })
  else if lastRequest pb args.ClientID = args.RequestID then (pb, { Err := OK })
  else
    ({ pb with impl := { pb.impl with
        kvMap := applyWrite pb.impl.kvMap args.Operation args.Key args.Value
        LastRequestProcessed :=
          pb.impl.LastRequestProcessed.store args.ClientID args.RequestID } },
      { Err := OK })

/-- `PutAppend` with the effect of its RPC on the rest of the system made
explicit. `w` is the state of the world outside this replica, and
`call w srv fwdArgs` is what
`call(srv, "PBServer.ForwardPut", fwdArgs, &fpReply)` does to it: the world it
leaves behind and the reply it fills in. The control flow is that of
`PBServer.PutAppend` (lines 105-182); a run that makes no call leaves the
world as it was. -/
def PBServer.PutAppendIn {ω : Type} (pb : PBServer) (args : PutAppendArgs) (w : ω)
    (call : ω → String → ForwardPutArgs → ω × ForwardPutReply) :
    PBServer × PutAppendReply × ω :=
  if pb.me ≠ pb.impl.Primary then (pb, { Err := ErrWrongServer }, w)
  else if lastRequest pb args.Impl.ClientID = args.Impl.RequestID then (pb, { Err := OK }, w)
  else if pb.impl.Backup ≠ "" then
    let sent := call w pb.impl.Backup (forwardArgs args)
    if sent.2.Err = OK then (applyLocal pb args, { Err := OK }, sent.1)
    else (pb, { Err := sent.2.Err }, sent.1)
  else (applyLocal pb args, { Err := OK }, w)

/-- The transport between a primary and the replica `bk`: a `ForwardPut`
addressed to `bk.me` is handled by `bk`, whose new state and reply come back;
a call to any other address fails, leaving `bk` alone and the reply
zero-valued. -/
def deliverForwardPut (bk : PBServer) (srv : String) (fwdArgs : ForwardPutArgs) :
    PBServer × ForwardPutReply :=
  if srv = bk.me then PBServer.ForwardPut bk fwdArgs else (bk, { Err := "" })

/-- What one run of the replica's `tick` did: the state it ended in, the view
numbers of the pings it sent to the view service (in order, the ping of line
198 first), and the `ForwardDatabase` calls it made (destination and
arguments). -/
structure TickRun where
  pb : PBServer
  pings : List Nat
  forwards : List (String × ForwardDatabaseArgs)
deriving DecidableEq, Repr

/-- The replica's periodic `tick()`. `realView` is the result of the ping of
line 198 (`none` when it returns an error); `call srv args` is what the reply
variable `fdbReply` holds after
`call(srv, "PBServer.ForwardDatabase", args, &fdbReply)`. The results of the
follow-up pings are discarded by the code. -/
def PBServer.tick (pb : PBServer) (realView : Option viewservice.View)
    (call : String → ForwardDatabaseArgs → ForwardDatabaseReply) : TickRun :=
  match realView with
  | none => { pb := pb, pings := [pb.impl.Viewnum], forwards := [] }
  | some realView =>
    let adopted : PBServer :=
      { pb with impl := { pb.impl with
          Viewnum := realView.Viewnum
          Primary := realView.Primary
          Backup := realView.Backup } }
    if realView.Primary = pb.me ∧ pb.impl.Viewnum < realView.Viewnum then
      if realView.Backup ≠ "" then
        let args : ForwardDatabaseArgs := { Data := pb.impl.kvMap }
        let fdbReply := call realView.Backup args
        if fdbReply.Err = OK then
          { pb := adopted, pings := [pb.impl.Viewnum, adopted.impl.Viewnum]
            forwards := [(realView.Backup, args)] }
        else
          { pb := pb, pings := [pb.impl.Viewnum, pb.impl.Viewnum]
            forwards := [(realView.Backup, args)] }
      else
        { pb := adopted, pings := [pb.impl.Viewnum, adopted.impl.Viewnum], forwards := [] }
    else if realView.Primary = pb.me ∧ pb.impl.Viewnum ≥ realView.Viewnum then
      if realView.Backup ≠ "" then
        { pb := pb, pings := [pb.impl.Viewnum, pb.impl.Viewnum]
          forwards := [(realView.Backup, { Data := pb.impl.kvMap })] }
      else
        { pb := pb, pings := [pb.impl.Viewnum, pb.impl.Viewnum], forwards := [] }
    else if realView.Primary ≠ pb.me ∧ pb.impl.Viewnum < realView.Viewnum then
      { pb := adopted, pings := [pb.impl.Viewnum, adopted.impl.Viewnum], forwards := [] }
    else
      { pb := pb, pings := [pb.impl.Viewnum], forwards := [] }

/-- The client state `ClerkImpl`. -/
structure ClerkImpl where
  clientID : Int
  requestID : Int
  primary : String
  viewnum : Nat
deriving DecidableEq, Repr

/-- What the environment supplies during one iteration of a Clerk retry loop:
the answers of the view service to `ck.vs.Primary()` and `ck.vs.Get()` (read
only when the cached primary is empty), the value drawn by `nrand()`, and the
outcome of `call` (its boolean result and the reply it left behind). -/
structure Attempt (ρ : Type) where
  vsPrimary : String
  vsGet : viewservice.View × Bool
  nrand : Int
  ok : Bool
  reply : ρ

/-- The statement `requestID++` on an `int64`. -/
def int64Incr (n : Int) : Int := (n + 1 + 2 ^ 63) % 2 ^ 64 - 2 ^ 63

/-- The helper `fetchPrimary`. -/
def fetchPrimary (ck : ClerkImpl) (vsPrimary : String) (vsGet : viewservice.View × Bool) :
    ClerkImpl :=
  { ck with primary := vsPrimary, viewnum := if vsGet.2 then vsGet.1.Viewnum else 0 }

/-- What a run of a Clerk loop did: the client state it ended in, the requests
it sent (destination and arguments, in order), and the value returned, `none`
while the loop is still retrying when the environment script ends. -/
structure Run (α β : Type) where
  ck : ClerkImpl
  sent : List (String × α)
  result : Option β

/-- The loop of `Clerk.Get`, run against a script of attempts. -/
def Clerk.Get (ck : ClerkImpl) (key : String) :
    List (Attempt GetReply) → Run GetArgs String
  | [] => { ck := ck, sent := [], result := none }
  | a :: rest =>
    let ck1 := if ck.primary = "" then fetchPrimary ck a.vsPrimary a.vsGet else ck
    let currPrimary := ck1.primary
    let args : GetArgs :=
      { Key := key, Impl := { ClientID := ck1.clientID, RequestID := a.nrand } }
    if ck1.primary ≠ "" ∧ ck1.primary ≠ currPrimary then
      let r := Clerk.Get { ck1 with primary := "" } key rest
      { r with sent := (currPrimary, args) :: r.sent }
    else if a.ok = true ∧ (a.reply.Err = OK ∨ a.reply.Err = ErrNoKey) then
      { ck := { ck1 with requestID := int64Incr ck1.requestID }
        sent := [(currPrimary, args)]
        result := some a.reply.Value }
    else
      let ck2 :=
        if a.ok = false ∨ a.reply.Err = ErrWrongServer then { ck1 with primary := "" }
        else ck1
      let r := Clerk.Get ck2 key rest
      { r with sent := (currPrimary, args) :: r.sent }

/-- The loop of `Clerk.PutAppend`, run against a script of attempts. -/
def Clerk.PutAppend (ck : ClerkImpl) (key value op : String) :
    List (Attempt PutAppendReply) → Run PutAppendArgs Unit
  | [] => { ck := ck, sent := [], result := none }
  | a :: rest =>
    let ck1 := if ck.primary = "" then fetchPrimary ck a.vsPrimary a.vsGet else ck
    let args : PutAppendArgs :=
      { Key := key, Value := value
        Impl := { ClientID := ck1.clientID, RequestID := a.nrand, Operation := op } }
    if a.ok = true ∧ a.reply.Err = OK then
      { ck := { ck1 with requestID := int64Incr ck1.requestID }
        sent := [(ck1.primary, args)]
        result := some () }
    else
      let ck2 :=
        if a.ok = false ∨ a.reply.Err = ErrWrongServer then { ck1 with primary := "" }
        else ck1
      let r := Clerk.PutAppend ck2 key value op rest
      { r with sent := (ck1.primary, args) :: r.sent }

end pbservice

/-! ## View service: the acknowledgement gate and single increments -/

namespace viewservice

theorem pingPromote_tracked {D P : Int} {v0 : View} {vs vs1 : ViewServerImpl}
    {primary : serverState} {now : Int} {inc inc1 : Bool} (h : Tracked v0 vs inc)
    (hp : pingPromote D P vs primary now inc = some (vs1, inc1)) : Tracked v0 vs1 inc1 := by
  unfold pingPromote at hp
  split at hp
  · split at hp
    · split at hp
      · exact absurd hp (by simp)
      · split at hp
        · simp only [Option.some.injEq, Prod.mk.injEq] at hp
          obtain ⟨rfl, rfl⟩ := hp
          rcases h with ⟨rfl, rfl⟩ | ⟨rfl, h1, _⟩
          · exact Or.inr ⟨rfl, by simp [bumpView], rfl⟩
          · exact Or.inr ⟨rfl, by simpa [bumpView] using h1, rfl⟩
        · simp only [Option.some.injEq, Prod.mk.injEq] at hp
          obtain ⟨rfl, rfl⟩ := hp
          exact h
    · simp only [Option.some.injEq, Prod.mk.injEq] at hp
      obtain ⟨rfl, rfl⟩ := hp
      exact h
  · simp only [Option.some.injEq, Prod.mk.injEq] at hp
    obtain ⟨rfl, rfl⟩ := hp
    exact h

theorem pingBackup_tracked {D P : Int} {v0 : View} {vs vs1 : ViewServerImpl}
    {now : Int} {order : List String} {inc inc1 : Bool} (h : Tracked v0 vs inc)
    (hp : pingBackup D P vs now order inc = some (vs1, inc1)) : Tracked v0 vs1 inc1 := by
  unfold pingBackup at hp
  split at hp
  · split at hp
    · exact absurd hp (by simp)
    · split at hp
      · simp only [Option.some.injEq, Prod.mk.injEq] at hp
        obtain ⟨rfl, rfl⟩ := hp
        rcases h with ⟨rfl, rfl⟩ | ⟨rfl, h1, _⟩
        · exact Or.inr ⟨rfl, by simp [bumpView], rfl⟩
        · exact Or.inr ⟨rfl, by simpa [bumpView] using h1, rfl⟩
      · simp only [Option.some.injEq, Prod.mk.injEq] at hp
        obtain ⟨rfl, rfl⟩ := hp
        exact h
  · split at hp
    · simp only [Option.some.injEq, Prod.mk.injEq] at hp
      obtain ⟨rfl, rfl⟩ := hp
      rcases h with ⟨rfl, rfl⟩ | ⟨rfl, h1, _⟩
      · exact Or.inr ⟨rfl, by simp [bumpView], rfl⟩
      · exact Or.inr ⟨rfl, by simpa [bumpView] using h1, rfl⟩
    · simp only [Option.some.injEq, Prod.mk.injEq] at hp
      obtain ⟨rfl, rfl⟩ := hp
      exact h

theorem pingAdvance_tracked {D P : Int} {v0 : View} {vs vs1 : ViewServerImpl}
    {now : Int} {order : List String} {inc : Bool} (h : Tracked v0 vs inc)
    (hp : pingAdvance D P vs now order inc = some vs1) : ∃ inc1, Tracked v0 vs1 inc1 := by
  unfold pingAdvance at hp
  split at hp
  · split at hp
    · split at hp
      · exact absurd hp (by simp)
      · rename_i vs2 inc2 h2
        split at hp
        · exact absurd hp (by simp)
        · rename_i vs3 inc3 h3
          simp only [Option.some.injEq] at hp
          subst hp
          exact ⟨inc3, pingBackup_tracked (pingPromote_tracked h h2) h3⟩
    · simp only [Option.some.injEq] at hp
      subst hp
      exact ⟨inc, h⟩
  · simp only [Option.some.injEq] at hp
    subst hp
    exact ⟨inc, h⟩

theorem tickPrimaryFailed_tracked {D P : Int} {v0 : View} {vs : ViewServerImpl}
    {primary backup : serverState} {now : Int} {order : List String} {inc : Bool}
    (h : Tracked v0 vs inc) :
    Tracked v0 (tickPrimaryFailed D P vs primary backup now order inc).1
      (tickPrimaryFailed D P vs primary backup now order inc).2 := by
  unfold tickPrimaryFailed
  split
  · split
    · rcases h with ⟨rfl, rfl⟩ | ⟨rfl, h1, _⟩
      · exact Or.inr ⟨rfl, by simp [bumpView], rfl⟩
      · exact Or.inr ⟨rfl, by simpa [bumpView] using h1, rfl⟩
    · exact h
  · exact h

theorem tickBackupFailed_tracked {D P : Int} {v0 : View} {vs : ViewServerImpl}
    {primary backup : serverState} {now : Int} {order : List String} {inc : Bool}
    (h : Tracked v0 vs inc) :
    Tracked v0 (tickBackupFailed D P vs primary backup now order inc).1
      (tickBackupFailed D P vs primary backup now order inc).2 := by
  unfold tickBackupFailed
  split
  · rcases h with ⟨rfl, rfl⟩ | ⟨rfl, h1, _⟩
    · exact Or.inr ⟨rfl, by simp [bumpView], rfl⟩
    · exact Or.inr ⟨rfl, by simpa [bumpView] using h1, rfl⟩
  · exact h

theorem tickBothFailed_tracked {D P : Int} {v0 : View} {vs : ViewServerImpl}
    {primary backup : serverState} {now : Int} {order : List String} {inc : Bool}
    (h : Tracked v0 vs inc) :
    Tracked v0 (tickBothFailed D P vs primary backup now order inc).1
      (tickBothFailed D P vs primary backup now order inc).2 := by
  unfold tickBothFailed
  split
  · rcases h with ⟨rfl, rfl⟩ | ⟨rfl, h1, _⟩
    · exact Or.inr ⟨rfl, by simp [bumpView], rfl⟩
    · exact Or.inr ⟨rfl, by simpa [bumpView] using h1, rfl⟩
  · exact h

theorem tick_tracked (D P : Int) (vs : ViewServerImpl) (now : Int)
    (o1 o2 o3 : List String) :
    ∃ inc, Tracked vs.currentView (tick D P vs now o1 o2 o3) inc := by
  unfold tick
  split
  · split
    · split
      · exact ⟨_, tickBothFailed_tracked (tickBackupFailed_tracked
          (tickPrimaryFailed_tracked (Or.inl ⟨rfl, rfl⟩)))⟩
      · exact ⟨false, Or.inl ⟨rfl, rfl⟩⟩
    · exact ⟨false, Or.inl ⟨rfl, rfl⟩⟩
  · exact ⟨false, Or.inl ⟨rfl, rfl⟩⟩

theorem uintIncr_of_lt {n : Nat} (h : n < 2 ^ 64 - 1) : uintIncr n = n + 1 := by
  unfold uintIncr
  exact Nat.mod_eq_of_lt (by omega)

theorem pingAck_bootstrap_tracked (vs : ViewServerImpl) (args : PingArgs) (now : Int)
    (hmax : vs.currentView.Viewnum < 2 ^ 64 - 1) :
    Tracked vs.currentView (pingAck (pingBootstrap (pingRecord vs args now) args).1 args)
      (pingBootstrap (pingRecord vs args now) args).2 := by
  unfold pingBootstrap
  split
  · rename_i h0
    split
    · refine Or.inr ⟨rfl, ?_⟩
      have hne : ¬ (args.Viewnum = uintIncr vs.currentView.Viewnum) := by
        rw [uintIncr_of_lt hmax, h0]; omega
      simp [pingAck, bumpView, pingRecord, hne]
    · refine Or.inl ⟨rfl, ?_⟩
      unfold pingAck
      split <;> rfl
  · refine Or.inl ⟨rfl, ?_⟩
    unfold pingAck
    split <;> rfl

theorem viewStep_of_tracked {vs vs1 : ViewServerImpl} {inc : Bool}
    (hmax : vs.currentView.Viewnum < 2 ^ 64 - 1) (h : Tracked vs.currentView vs1 inc) :
    ViewStep vs vs1 := by
  rcases h with ⟨_, h1⟩ | ⟨_, h1, h2⟩
  · refine ⟨Or.inl h1, by rw [h1], ?_⟩
    rw [h1]
    rintro (h | h) <;> exact absurd rfl h
  · rw [uintIncr_of_lt hmax] at h1
    refine ⟨Or.inr ⟨h1, h2⟩, by omega, fun _ => by omega⟩

/-- C1. Acknowledgement gate: in a state whose view is unacknowledged, `tick`
leaves the current view unchanged, and every `Ping` that is not the primary
reporting the current view number returns, replies with the unchanged view and
leaves the current view unchanged, whatever the liveness records hold. -/
theorem acknowledgement_gate (DeadPings PingInterval : Int) (vs : ViewServerImpl)
    (now : Int) (hack : vs.acknowledged = false) :
    (∀ order1 order2 order3,
      (tick DeadPings PingInterval vs now order1 order2 order3).currentView
        = vs.currentView) ∧
    (∀ (args : PingArgs) (order : List String),
      ¬ (args.Me = vs.currentView.Primary ∧ args.Viewnum = vs.currentView.Viewnum) →
      ∃ vs1, Ping DeadPings PingInterval vs args now order
          = some (vs1, { View := vs.currentView }) ∧
        vs1.currentView = vs.currentView ∧ vs1.acknowledged = false) := by
  constructor
  · intro o1 o2 o3
    unfold tick
    split
    · split
      · simp [hack]
      · rfl
    · rfl
  · intro args order hne
    refine ⟨pingRecord vs args now, ?_, rfl, hack⟩
    have hb : pingBootstrap (pingRecord vs args now) args = (pingRecord vs args now, false) := by
      unfold pingBootstrap
      simp [pingRecord, hack]
    have ha : pingAck (pingRecord vs args now) args = pingRecord vs args now := by
      unfold pingAck
      rw [if_neg]
      simpa [pingRecord] using hne
    have hadv : pingAdvance DeadPings PingInterval (pingRecord vs args now) now order false
        = some (pingRecord vs args now) := by
      unfold pingAdvance
      simp [pingRecord, hack]
    simp only [Ping, hb, ha, hadv]
    rfl

/-- Witness for C1: an unacknowledged view `{1, "a", ""}`, pinged by the idle
server `"b"`. -/
theorem acknowledgement_gate_witness :
    (∀ order1 order2 order3,
      (tick 5 100 ⟨⟨1, "a", ""⟩, [("a", ⟨0, 0⟩)], false⟩ 1000 order1 order2 order3).currentView
        = ⟨1, "a", ""⟩) ∧
    (∀ (args : PingArgs) (order : List String),
      ¬ (args.Me = "a" ∧ args.Viewnum = 1) →
      ∃ vs1, Ping 5 100 ⟨⟨1, "a", ""⟩, [("a", ⟨0, 0⟩)], false⟩ args 1000 order
          = some (vs1, { View := ⟨1, "a", ""⟩ }) ∧
        vs1.currentView = ⟨1, "a", ""⟩ ∧ vs1.acknowledged = false) :=
  acknowledgement_gate 5 100 ⟨⟨1, "a", ""⟩, [("a", ⟨0, 0⟩)], false⟩ 1000 rfl

/-- C2. View steps are single increments: from a state whose `Viewnum` is below
the uint maximum, every `Ping` that returns and every `tick` either leaves the
current view unchanged or increases `Viewnum` by exactly one and leaves the view
unacknowledged; `Viewnum` never decreases and `Primary`/`Backup` never change
without `Viewnum` changing. The reply of `Ping` is the resulting view. -/
theorem view_steps_single_increment (DeadPings PingInterval : Int) (vs : ViewServerImpl)
    (now : Int) (hmax : vs.currentView.Viewnum < 2 ^ 64 - 1) :
    (∀ (args : PingArgs) (order : List String) (vs1 : ViewServerImpl) (reply : PingReply),
      Ping DeadPings PingInterval vs args now order = some (vs1, reply) →
        ViewStep vs vs1 ∧ reply.View = vs1.currentView) ∧
    (∀ order1 order2 order3,
      ViewStep vs (tick DeadPings PingInterval vs now order1 order2 order3)) := by
  constructor
  · intro args order vs1 reply h
    unfold Ping at h
    simp only at h
    split at h
    · exact absurd h (by simp)
    · rename_i vs3 h3
      simp only [Option.some.injEq, Prod.mk.injEq] at h
      obtain ⟨rfl, rfl⟩ := h
      obtain ⟨inc, ht⟩ := pingAdvance_tracked (pingAck_bootstrap_tracked vs args now hmax) h3
      exact ⟨viewStep_of_tracked hmax ht, rfl⟩
  · intro o1 o2 o3
    obtain ⟨inc, ht⟩ := tick_tracked DeadPings PingInterval vs now o1 o2 o3
    exact viewStep_of_tracked hmax ht

/-- C6. Bootstrap: in the initial state, `Ping(s, 0)` returns exactly the view
`{1, s, ""}` and leaves the view unacknowledged, for every server id `s`, every
instant and every iteration order. -/
theorem bootstrap_first_ping (DeadPings PingInterval : Int) (s : String) (now : Int)
    (order : List String) :
    ∃ vs1, Ping DeadPings PingInterval initImpl { Me := s, Viewnum := 0 } now order
        = some (vs1, { View := { Viewnum := 1, Primary := s, Backup := "" } }) ∧
      vs1.currentView = { Viewnum := 1, Primary := s, Backup := "" } ∧
      vs1.acknowledged = false := by
  refine ⟨{ currentView := { Viewnum := 1, Primary := s, Backup := "" }
            servers := [(s, { lastPing := now, viewNum := 0 })]
            acknowledged := false }, ?_, rfl, rfl⟩
  simp [Ping, pingRecord, pingBootstrap, pingAck, pingAdvance, initImpl, GoMap.store,
    GoMap.len, GoMap.keys, bumpView, uintIncr]

end viewservice

/-! ## Go maps -/

namespace GoMap

variable {κ ν : Type} [DecidableEq κ]

theorem lookup_store (m : GoMap κ ν) (k k' : κ) (v : ν) :
    (m.store k v).lookup k' = if k = k' then some v else m.lookup k' := by
  induction m with
  | nil => simp [store, lookup]
  | cons hd tl ih =>
    obtain ⟨a, b⟩ := hd
    by_cases hak : a = k
    · subst hak
      by_cases hk : a = k' <;> simp [store, lookup, hk]
    · by_cases hk : k = k'
      · subst hk
        simp [store, lookup, hak, ih]
      · by_cases hak' : a = k'
        · subst hak'
          simp [store, lookup, hak, hk]
        · simp [store, lookup, hak, hak', ih, hk]

theorem lookup_store_self (m : GoMap κ ν) (k : κ) (v : ν) :
    (m.store k v).lookup k = some v := by
  rw [lookup_store, if_pos rfl]

theorem lookup_store_of_ne (m : GoMap κ ν) {k k' : κ} (v : ν) (h : k ≠ k') :
    (m.store k v).lookup k' = m.lookup k' := by
  rw [lookup_store, if_neg h]

theorem mem_keys_of_lookup {m : GoMap κ ν} {k : κ} {v : ν} (h : m.lookup k = some v) :
    k ∈ m.keys := by
  induction m with
  | nil => simp [lookup] at h
  | cons hd tl ih =>
    obtain ⟨a, b⟩ := hd
    by_cases hak : a = k
    · simp [keys, hak]
    · simp only [lookup, hak, if_false] at h
      have := ih h
      simp only [keys, List.map_cons, List.mem_cons] at this ⊢
      exact Or.inr this

theorem lookup_isSome_of_mem_keys {m : GoMap κ ν} {k : κ} (h : k ∈ m.keys) :
    (m.lookup k).isSome = true := by
  induction m with
  | nil => simp [keys] at h
  | cons hd tl ih =>
    obtain ⟨a, b⟩ := hd
    by_cases hak : a = k
    · simp [lookup, hak]
    · simp only [keys, List.map_cons, List.mem_cons] at h
      rcases h with h | h
      · exact absurd h.symm hak
      · simpa [lookup, hak] using ih h

/-- Two distinct bound keys make `len` different from one. -/
theorem len_ne_one_of_two {m : GoMap κ ν} {a b : κ} (ha : (m.lookup a).isSome = true)
    (hb : (m.lookup b).isSome = true) (hab : a ≠ b) : m.len ≠ 1 := by
  intro h1
  obtain ⟨va, hva⟩ := Option.isSome_iff_exists.mp ha
  obtain ⟨vb, hvb⟩ := Option.isSome_iff_exists.mp hb
  have hma : a ∈ m.keys.dedup := List.mem_dedup.mpr (mem_keys_of_lookup hva)
  have hmb : b ∈ m.keys.dedup := List.mem_dedup.mpr (mem_keys_of_lookup hvb)
  obtain ⟨x, hx⟩ := List.length_eq_one.mp h1
  rw [hx] at hma hmb
  simp only [List.mem_singleton] at hma hmb
  exact hab (hma.trans hmb.symm)

end GoMap

/-! ## View service: roles stay distinct -/

namespace viewservice

theorem rangeFind_some {m : GoMap String serverState} {p : String → serverState → Bool}
    {order : List String} {k : String} (h : rangeFind m p order = some k) :
    k ∈ order ∧ ∃ st, m.lookup k = some st ∧ p k st = true := by
  induction order with
  | nil => simp [rangeFind] at h
  | cons hd tl ih =>
    unfold rangeFind at h
    split at h
    · rename_i st hst
      split at h
      · rename_i hp
        simp only [Option.some.injEq] at h
        subst h
        exact ⟨List.mem_cons_self _ _, st, hst, hp⟩
      · exact ⟨List.mem_cons_of_mem _ (ih h).1, (ih h).2⟩
    · exact ⟨List.mem_cons_of_mem _ (ih h).1, (ih h).2⟩

theorem idleServer_spec (D P : Int) (vs : ViewServerImpl) (now : Int) (needInit : Bool)
    (order : List String) :
    idleServer D P vs now needInit order = "" ∨
      (Known vs (idleServer D P vs now needInit order) ∧
        idleServer D P vs now needInit order ≠ vs.currentView.Primary ∧
        idleServer D P vs now needInit order ≠ vs.currentView.Backup) := by
  unfold idleServer
  cases h : rangeFind vs.servers _ order with
  | none => exact Or.inl rfl
  | some k =>
    right
    obtain ⟨_, st, hst, hp⟩ := rangeFind_some h
    simp only [Bool.and_eq_true, decide_eq_true_eq] at hp
    exact ⟨by simp [Known, hst], hp.1.1.1, hp.1.1.2⟩

theorem rolesOK_pingRecord {vs : ViewServerImpl} (args : PingArgs) (now : Int)
    (h : RolesOK vs) (hme : args.Me ≠ "") : RolesOK (pingRecord vs args now) := by
  have hk : ∀ s, Known vs s → Known (pingRecord vs args now) s := by
    intro s hs
    unfold Known pingRecord
    simp only [GoMap.lookup_store]
    split
    · rfl
    · exact hs
  refine ⟨?_, fun hb => ?_⟩
  · simp only [pingRecord]
    rw [GoMap.lookup_store_of_ne _ _ hme]
    exact h.1
  · obtain ⟨h1, h2, h3⟩ := h.2 hb
    exact ⟨hk _ h1, hk _ h2, h3⟩

theorem rolesOK_pingBootstrap {vs : ViewServerImpl} (args : PingArgs) (h : RolesOK vs) :
    RolesOK (pingBootstrap vs args).1 := by
  unfold pingBootstrap
  split
  · split
    · rename_i hlen
      have hb : vs.currentView.Backup = "" := by
        by_contra hb
        obtain ⟨h1, h2, h3⟩ := h.2 hb
        exact GoMap.len_ne_one_of_two h2 h1 h3 hlen.1
      refine ⟨h.1, fun hb1 => ?_⟩
      simp [bumpView, hb] at hb1
    · exact h
  · exact h

theorem rolesOK_pingAck {vs : ViewServerImpl} (args : PingArgs) (h : RolesOK vs) :
    RolesOK (pingAck vs args) := by
  unfold pingAck
  split
  · exact h
  · exact h

theorem rolesOK_pingPromote {D P : Int} {vs vs1 : ViewServerImpl} {primary : serverState}
    {now : Int} {inc inc1 : Bool} (h : RolesOK vs) (hk : Known vs vs.currentView.Primary)
    (hp : pingPromote D P vs primary now inc = some (vs1, inc1)) :
    RolesOK vs1 ∧ Known vs1 vs1.currentView.Primary := by
  unfold pingPromote at hp
  split at hp
  · split at hp
    · split at hp
      · exact absurd hp (by simp)
      · rename_i backup hbk
        split at hp
        · simp only [Option.some.injEq, Prod.mk.injEq] at hp
          obtain ⟨rfl, rfl⟩ := hp
          refine ⟨⟨h.1, fun hb1 => ?_⟩, ?_⟩
          · cases inc <;> simp [bumpView] at hb1
          · cases inc <;> simp [bumpView, Known, hbk]
        · simp only [Option.some.injEq, Prod.mk.injEq] at hp
          obtain ⟨rfl, rfl⟩ := hp
          exact ⟨h, hk⟩
    · simp only [Option.some.injEq, Prod.mk.injEq] at hp
      obtain ⟨rfl, rfl⟩ := hp
      exact ⟨h, hk⟩
  · simp only [Option.some.injEq, Prod.mk.injEq] at hp
    obtain ⟨rfl, rfl⟩ := hp
    exact ⟨h, hk⟩

theorem rolesOK_pingBackup {D P : Int} {vs vs1 : ViewServerImpl} {now : Int}
    {order : List String} {inc inc1 : Bool} (h : RolesOK vs)
    (hk : Known vs vs.currentView.Primary)
    (hp : pingBackup D P vs now order inc = some (vs1, inc1)) : RolesOK vs1 := by
  unfold pingBackup at hp
  split at hp
  · split at hp
    · exact absurd hp (by simp)
    · split at hp
      · simp only [Option.some.injEq, Prod.mk.injEq] at hp
        obtain ⟨rfl, rfl⟩ := hp
        refine ⟨h.1, fun hb1 => ?_⟩
        cases inc <;> simp [bumpView] at hb1
      · simp only [Option.some.injEq, Prod.mk.injEq] at hp
        obtain ⟨rfl, rfl⟩ := hp
        exact h
  · split at hp
    · rename_i s hs
      simp only [Option.some.injEq, Prod.mk.injEq] at hp
      obtain ⟨rfl, rfl⟩ := hp
      obtain ⟨_, st, hst, hpd⟩ := rangeFind_some hs
      simp only [Bool.and_eq_true, decide_eq_true_eq] at hpd
      refine ⟨h.1, fun _ => ?_⟩
      cases inc
      · exact ⟨by simp [bumpView, Known, hst], by simpa [bumpView, Known] using hk,
          by simpa [bumpView] using fun e => hpd.1 e.symm⟩
      · exact ⟨by simp [bumpView, Known, hst], by simpa [bumpView, Known] using hk,
          by simpa [bumpView] using fun e => hpd.1 e.symm⟩
    · simp only [Option.some.injEq, Prod.mk.injEq] at hp
      obtain ⟨rfl, rfl⟩ := hp
      exact h

theorem rolesOK_pingAdvance {D P : Int} {vs vs1 : ViewServerImpl} {now : Int}
    {order : List String} {inc : Bool} (h : RolesOK vs)
    (hp : pingAdvance D P vs now order inc = some vs1) : RolesOK vs1 := by
  unfold pingAdvance at hp
  split at hp
  · split at hp
    · rename_i primary hprim
      have hk : Known vs vs.currentView.Primary := by simp [Known, hprim]
      split at hp
      · exact absurd hp (by simp)
      · rename_i vs2 inc2 h2
        split at hp
        · exact absurd hp (by simp)
        · rename_i vs3 inc3 h3
          simp only [Option.some.injEq] at hp
          subst hp
          obtain ⟨hr, hk2⟩ := rolesOK_pingPromote h hk h2
          exact rolesOK_pingBackup hr hk2 h3
    · simp only [Option.some.injEq] at hp
      subst hp
      exact h
  · simp only [Option.some.injEq] at hp
    subst hp
    exact h

theorem rolesOK_Ping {D P : Int} {vs vs1 : ViewServerImpl} {args : PingArgs} {now : Int}
    {order : List String} {reply : PingReply} (h : RolesOK vs) (hme : args.Me ≠ "")
    (hp : Ping D P vs args now order = some (vs1, reply)) : RolesOK vs1 := by
  unfold Ping at hp
  simp only at hp
  split at hp
  · exact absurd hp (by simp)
  · rename_i vs3 h3
    simp only [Option.some.injEq, Prod.mk.injEq] at hp
    obtain ⟨rfl, _⟩ := hp
    exact rolesOK_pingAdvance
      (rolesOK_pingAck args (rolesOK_pingBootstrap args (rolesOK_pingRecord args now h hme))) h3

theorem pingPromote_returns {D P : Int} {vs : ViewServerImpl} (primary : serverState)
    (now : Int) (inc : Bool) (h : RolesOK vs) :
    ∃ r, pingPromote D P vs primary now inc = some r := by
  unfold pingPromote
  split
  · split
    · rename_i hB
      obtain ⟨b, hb⟩ := Option.isSome_iff_exists.mp (h.2 hB).1
      rw [hb]
      simp only
      split
      · exact ⟨_, rfl⟩
      · exact ⟨_, rfl⟩
    · exact ⟨_, rfl⟩
  · exact ⟨_, rfl⟩

theorem pingBackup_returns {D P : Int} {vs : ViewServerImpl} (now : Int)
    (order : List String) (inc : Bool) (h : RolesOK vs) :
    ∃ r, pingBackup D P vs now order inc = some r := by
  unfold pingBackup
  split
  · rename_i hB
    obtain ⟨b, hb⟩ := Option.isSome_iff_exists.mp (h.2 hB).1
    rw [hb]
    simp only
    split
    · exact ⟨_, rfl⟩
    · exact ⟨_, rfl⟩
  · split
    · exact ⟨_, rfl⟩
    · exact ⟨_, rfl⟩

/-- In a state that satisfies the role invariant, in particular in every
reachable state, `Ping` from a non-empty server id does not panic. -/
theorem Ping_returns (D P : Int) {vs : ViewServerImpl} (args : PingArgs) (now : Int)
    (order : List String) (h : RolesOK vs) (hme : args.Me ≠ "") :
    ∃ vs1 reply, Ping D P vs args now order = some (vs1, reply) := by
  have h2 : RolesOK (pingAck (pingBootstrap (pingRecord vs args now) args).1 args) :=
    rolesOK_pingAck args (rolesOK_pingBootstrap args (rolesOK_pingRecord args now h hme))
  unfold Ping
  simp only
  generalize pingAck (pingBootstrap (pingRecord vs args now) args).1 args = vs2 at h2
  generalize (pingBootstrap (pingRecord vs args now) args).2 = inc
  have hadv : ∃ v, pingAdvance D P vs2 now order inc = some v := by
    unfold pingAdvance
    split
    · split
      · rename_i primary hprim
        obtain ⟨⟨v1, i1⟩, hr1⟩ := pingPromote_returns (D := D) (P := P) primary now inc h2
        have hk : Known vs2 vs2.currentView.Primary := by simp [Known, hprim]
        obtain ⟨⟨v2, i2⟩, hr2⟩ := pingBackup_returns (D := D) (P := P) now order i1
          (rolesOK_pingPromote h2 hk hr1).1
        rw [hr1]
        simp only
        rw [hr2]
        exact ⟨_, rfl⟩
      · exact ⟨_, rfl⟩
    · exact ⟨_, rfl⟩
  obtain ⟨v, hv⟩ := hadv
  rw [hv]
  exact ⟨_, _, rfl⟩

theorem rolesOK_tick (D P : Int) {vs : ViewServerImpl} (now : Int)
    (o1 o2 o3 : List String) (h : RolesOK vs) : RolesOK (tick D P vs now o1 o2 o3) := by
  unfold tick
  split
  · rename_i primary hprim
    split
    · rename_i backup hbk
      split
      · have hkp : Known vs vs.currentView.Primary := by simp [Known, hprim]
        have hkb : Known vs vs.currentView.Backup := by simp [Known, hbk]
        have hb : vs.currentView.Backup ≠ "" := by
          intro e
          rw [e, h.1] at hbk
          exact absurd hbk (by simp)
        cases hp : expired D P now primary.lastPing <;>
          cases hb : expired D P now backup.lastPing
        · simpa [tickPrimaryFailed, tickBackupFailed, tickBothFailed, hp, hb] using h
        · simp only [tickPrimaryFailed, tickBackupFailed, tickBothFailed, hp, hb]
          simp only [Bool.false_eq_true, false_and, and_false, if_false, and_self, if_true,
            bumpView]
          refine ⟨h.1, fun hi => ?_⟩
          rcases idleServer_spec D P vs now false o2 with e | ⟨e1, e2, _⟩
          · exact absurd e hi
          · exact ⟨e1, hkp, fun e => e2 e.symm⟩
        · simp only [tickPrimaryFailed, tickBackupFailed, tickBothFailed, hp, hb]
          simp only [Bool.false_eq_true, false_and, and_false, if_false, and_self, if_true,
            and_true]
          split
          · simp only [bumpView, Bool.false_eq_true, if_false]
            refine ⟨h.1, fun hi => ?_⟩
            rcases idleServer_spec D P vs now false o1 with e | ⟨e1, _, e3⟩
            · exact absurd e hi
            · exact ⟨e1, hkb, fun e => e3 e.symm⟩
          · exact h
        · simp only [tickPrimaryFailed, tickBackupFailed, tickBothFailed, hp, hb]
          simp only [Bool.true_eq_false, and_false, false_and, if_false, and_self, if_true,
            bumpView, Bool.false_eq_true]
          exact ⟨h.1, fun hi => absurd rfl hi⟩
      · exact h
    · exact h
  · exact h

theorem rolesOK_of_reachable {D P : Int} {vs : ViewServerImpl} (h : Reachable D P vs) :
    RolesOK vs := by
  induction h with
  | init => exact ⟨rfl, fun hb => absurd rfl hb⟩
  | step vs vs1 _ hs ih =>
    cases hs with
    | ping args now order _ reply hme hp => exact rolesOK_Ping ih hme hp
    | tick now o1 o2 o3 => exact rolesOK_tick D P now o1 o2 o3 ih

/-- C7. Distinct roles: in every state reachable from the initial state by
`Ping` steps (from non-empty server ids) and `tick` steps, a non-empty primary
and a non-empty backup are different servers. -/
theorem distinct_roles (DeadPings PingInterval : Int) (vs : ViewServerImpl)
    (h : Reachable DeadPings PingInterval vs) (_hp : vs.currentView.Primary ≠ "")
    (hb : vs.currentView.Backup ≠ "") : vs.currentView.Primary ≠ vs.currentView.Backup :=
  ((rolesOK_of_reachable h).2 hb).2.2

/-- Witness for C7: the state `{2, "a", "b"}` reached by the pings `("a", 0)`,
`("a", 1)` and `("b", 0)`. -/
theorem distinct_roles_witness :
    (⟨⟨2, "a", "b"⟩, [("a", ⟨1, 1⟩), ("b", ⟨2, 0⟩)], false⟩ : ViewServerImpl).currentView.Primary
      ≠ (⟨⟨2, "a", "b"⟩, [("a", ⟨1, 1⟩), ("b", ⟨2, 0⟩)], false⟩ :
          ViewServerImpl).currentView.Backup :=
  distinct_roles 5 100 ⟨⟨2, "a", "b"⟩, [("a", ⟨1, 1⟩), ("b", ⟨2, 0⟩)], false⟩
    (Reachable.step ⟨⟨1, "a", ""⟩, [("a", ⟨1, 1⟩)], true⟩ _
      (Reachable.step ⟨⟨1, "a", ""⟩, [("a", ⟨0, 0⟩)], false⟩ _
        (Reachable.step initImpl _ Reachable.init
          (Step.ping initImpl ⟨"a", 0⟩ 0 [] _ ⟨⟨1, "a", ""⟩⟩ (by decide) (by decide)))
        (Step.ping _ ⟨"a", 1⟩ 1 ["a"] _ ⟨⟨1, "a", ""⟩⟩ (by decide) (by decide)))
      (Step.ping _ ⟨"b", 0⟩ 2 ["a", "b"] _ ⟨⟨2, "a", "b"⟩⟩ (by decide) (by decide)))
    (by decide) (by decide)

/-- Concrete instance for C2: the view `{1, "a", ""}`. -/
theorem view_steps_single_increment_witness :
    (1 : Nat) < 2 ^ 64 - 1 ∧
    ((∀ (args : PingArgs) (order : List String) (vs1 : ViewServerImpl) (reply : PingReply),
      Ping 5 100 ⟨⟨1, "a", ""⟩, [("a", ⟨1, 1⟩)], true⟩ args 2 order = some (vs1, reply) →
        ViewStep ⟨⟨1, "a", ""⟩, [("a", ⟨1, 1⟩)], true⟩ vs1 ∧ reply.View = vs1.currentView) ∧
    (∀ order1 order2 order3,
      ViewStep ⟨⟨1, "a", ""⟩, [("a", ⟨1, 1⟩)], true⟩
        (tick 5 100 ⟨⟨1, "a", ""⟩, [("a", ⟨1, 1⟩)], true⟩ 2 order1 order2 order3))) :=
  ⟨by norm_num,
    view_steps_single_increment 5 100 ⟨⟨1, "a", ""⟩, [("a", ⟨1, 1⟩)], true⟩ 2 (by norm_num)⟩

/-! ## View service: the rules of `Ping` -/

theorem rangeFind_isSome {m : GoMap String serverState} {p : String → serverState → Bool}
    {order : List String} {k : String} {st : serverState} (hk : k ∈ order)
    (hst : m.lookup k = some st) (hp : p k st = true) :
    ∃ k1, rangeFind m p order = some k1 := by
  induction order with
  | nil => simp at hk
  | cons hd tl ih =>
    unfold rangeFind
    rcases List.mem_cons.mp hk with e | e
    · subst e
      simp [hst, hp]
    · split
      · split
        · exact ⟨_, rfl⟩
        · exact ih e
      · exact ih e

theorem pingBootstrap_of_two {vs : ViewServerImpl} (args : PingArgs) {a b : String}
    (ha : Known vs a) (hb : Known vs b) (hab : a ≠ b) : pingBootstrap vs args = (vs, false) := by
  unfold pingBootstrap
  split
  · rw [if_neg]
    rintro ⟨h1, _⟩
    exact GoMap.len_ne_one_of_two ha hb hab h1
  · rfl

theorem pingAck_of_ack (vs : ViewServerImpl) (args : PingArgs)
    (h : vs.acknowledged = true ∨
      (args.Me = vs.currentView.Primary ∧ args.Viewnum = vs.currentView.Viewnum)) :
    pingAck vs args = { vs with acknowledged := true } := by
  unfold pingAck
  split
  · rfl
  · rename_i hn
    rcases h with h | h
    · cases vs
      simp only at h
      simp [h]
    · exact absurd h hn

/-- The shape of `Ping` past the bootstrap and acknowledgement steps, when two
distinct servers are known once the ping is recorded, the view is acknowledged
and the primary has the record `p`. -/
theorem Ping_of_acknowledged (D P : Int) (vs : ViewServerImpl) (args : PingArgs) (now : Int)
    (order : List String) (p : serverState) {a b : String}
    (ha : Known (pingRecord vs args now) a) (hb : Known (pingRecord vs args now) b)
    (hab : a ≠ b)
    (hack : vs.acknowledged = true ∨
      (args.Me = vs.currentView.Primary ∧ args.Viewnum = vs.currentView.Viewnum))
    (hp : (pingRecord vs args now).servers.lookup vs.currentView.Primary = some p) :
    Ping D P vs args now order =
      match pingPromote D P { pingRecord vs args now with acknowledged := true } p now false with
      | none => none
      | some (v1, i1) =>
        match pingBackup D P v1 now order i1 with
        | none => none
        | some (v2, _) => some (v2, { View := v2.currentView }) := by
  have hboot := pingBootstrap_of_two args ha hb hab
  have hack1 := pingAck_of_ack (pingRecord vs args now) args hack
  have hp1 : GoMap.lookup (pingRecord vs args now).servers
      (pingRecord vs args now).currentView.Primary = some p := hp
  simp only [Ping, hboot, hack1]
  unfold pingAdvance
  simp only [if_true, hp1]
  cases pingPromote D P { pingRecord vs args now with acknowledged := true } p now false with
  | none => rfl
  | some r =>
    obtain ⟨v1, i1⟩ := r
    simp only
    cases pingBackup D P v1 now order i1 with
    | none => rfl
    | some r2 => rfl

/-- C8. Rule 2 in `Ping` (backup promotion): when, after the ping is recorded,
the view `{n, P, B}` is acknowledged, `P` and `B` are distinct known servers,
`B` is non-empty, `P` is not alive (the test of line 95,
`time.Since(lastPing) > DeadPings*PingInterval`) or its recorded view number is
0, and the recorded view number of `B` is positive, `Ping` returns a view with
`Viewnum` `n + 1` (the uint increment: `(n + 1) mod 2 ^ 64`, which is `n + 1`
below the uint maximum) and `Primary = B` whose backup slot no longer holds `B`,
and the view is unacknowledged afterwards. -/
theorem ping_promotes_backup (DeadPings PingInterval : Int) (vs : ViewServerImpl)
    (args : PingArgs) (now : Int) (order : List String) (p b : serverState)
    (hPB : vs.currentView.Primary ≠ vs.currentView.Backup)
    (hB : vs.currentView.Backup ≠ "")
    (hack : vs.acknowledged = true ∨
      (args.Me = vs.currentView.Primary ∧ args.Viewnum = vs.currentView.Viewnum))
    (hp : (pingRecord vs args now).servers.lookup vs.currentView.Primary = some p)
    (hb : (pingRecord vs args now).servers.lookup vs.currentView.Backup = some b)
    (hdead : expired DeadPings PingInterval now p.lastPing = true ∨ p.viewNum = 0)
    (hinit : b.viewNum > 0) :
    ∃ vs1 reply, Ping DeadPings PingInterval vs args now order = some (vs1, reply) ∧
      reply.View = vs1.currentView ∧
      reply.View.Viewnum = (vs.currentView.Viewnum + 1) % 2 ^ 64 ∧
      (vs.currentView.Viewnum < 2 ^ 64 - 1 →
        reply.View.Viewnum = vs.currentView.Viewnum + 1) ∧
      reply.View.Primary = vs.currentView.Backup ∧
      reply.View.Backup ≠ vs.currentView.Backup ∧
      vs1.acknowledged = false := by
  have hlt : vs.currentView.Viewnum < 2 ^ 64 - 1 →
      (vs.currentView.Viewnum + 1) % 2 ^ 64 = vs.currentView.Viewnum + 1 :=
    fun h => Nat.mod_eq_of_lt (by omega)
  have hprom : pingPromote DeadPings PingInterval
      { pingRecord vs args now with acknowledged := true } p now false
      = some ({ pingRecord vs args now with
                  currentView := { Viewnum := uintIncr vs.currentView.Viewnum
                                   Primary := vs.currentView.Backup, Backup := "" }
                  acknowledged := false }, true) := by
    unfold pingPromote
    rw [if_pos hdead, if_pos (by simpa [pingRecord] using hB)]
    simp only [pingRecord] at hb ⊢
    simp [hb, hinit, bumpView]
  rw [Ping_of_acknowledged DeadPings PingInterval vs args now order p
    (by simp [Known, hp]) (by simp [Known, hb]) hPB hack hp, hprom]
  simp only
  unfold pingBackup
  simp only [ne_eq, not_true_eq_false, if_false]
  generalize hs : rangeFind _ _ order = r
  cases r with
  | some s =>
    obtain ⟨_, st, _, hpd⟩ := rangeFind_some hs
    simp only [Bool.and_eq_true, decide_eq_true_eq] at hpd
    exact ⟨_, _, rfl, rfl, rfl, hlt, rfl, hpd.1, rfl⟩
  | none => exact ⟨_, _, rfl, rfl, rfl, hlt, rfl, fun e => hB e.symm, rfl⟩

/-- Witness for C8: the acknowledged view `{2, "a", "b"}` whose primary `"a"`
was last heard at instant 0, pinged by `"b"` at instant 1000. -/
theorem ping_promotes_backup_witness :
    ∃ vs1 reply, Ping 5 100 ⟨⟨2, "a", "b"⟩, [("a", ⟨0, 2⟩), ("b", ⟨900, 2⟩)], true⟩
        ⟨"b", 2⟩ 1000 ["a", "b"] = some (vs1, reply) ∧
      reply.View = vs1.currentView ∧
      reply.View.Viewnum = (2 + 1) % 2 ^ 64 ∧
      (2 < 2 ^ 64 - 1 → reply.View.Viewnum = 2 + 1) ∧
      reply.View.Primary = "b" ∧
      reply.View.Backup ≠ "b" ∧
      vs1.acknowledged = false :=
  ping_promotes_backup 5 100 ⟨⟨2, "a", "b"⟩, [("a", ⟨0, 2⟩), ("b", ⟨900, 2⟩)], true⟩
    ⟨"b", 2⟩ 1000 ["a", "b"] ⟨0, 2⟩ ⟨1000, 2⟩ (by decide) (by decide) (Or.inl rfl)
    (by decide) (by decide) (Or.inl (by decide)) (by decide)

theorem pingPromote_of_no_backup (D P : Int) (vs : ViewServerImpl) (primary : serverState)
    (now : Int) (inc : Bool) (hB : vs.currentView.Backup = "") :
    pingPromote D P vs primary now inc = some (vs, inc) := by
  unfold pingPromote
  split
  · rw [if_neg (by simp [hB])]
  · rfl

theorem pingPromote_of_healthy (D P : Int) (vs : ViewServerImpl) (primary : serverState)
    (now : Int) (inc : Bool) (h1 : expired D P now primary.lastPing = false)
    (h2 : primary.viewNum > 0) : pingPromote D P vs primary now inc = some (vs, inc) := by
  unfold pingPromote
  rw [if_neg]
  rintro (h | h)
  · rw [h1] at h
    exact absurd h (by simp)
  · omega

/-- C9. Rule 3 in `Ping` (backup failure): in an acknowledged view `{n, P, B}`
with `B` non-empty and known, where after the ping is recorded `P` is alive
with a positive recorded view number and `B` is not alive (the tests of lines
95 and 114, `time.Since(lastPing) > DeadPings*PingInterval` for a dead server),
`Ping` returns exactly `{n + 1, P, ""}` (the uint increment:
`(n + 1) mod 2 ^ 64`, which is `n + 1` below the uint maximum) and leaves the
view unacknowledged: no replacement backup is installed in that same `Ping`,
whatever servers are known and whatever the iteration order. -/
theorem ping_drops_dead_backup (DeadPings PingInterval : Int) (vs : ViewServerImpl)
    (args : PingArgs) (now : Int) (order : List String) (p b : serverState)
    (hack : vs.acknowledged = true)
    (hB : vs.currentView.Backup ≠ "")
    (hp : (pingRecord vs args now).servers.lookup vs.currentView.Primary = some p)
    (hb : (pingRecord vs args now).servers.lookup vs.currentView.Backup = some b)
    (halive : expired DeadPings PingInterval now p.lastPing = false)
    (hinit : p.viewNum > 0)
    (hdead : expired DeadPings PingInterval now b.lastPing = true) :
    ∃ vs1, Ping DeadPings PingInterval vs args now order
        = some (vs1, { View := { Viewnum := (vs.currentView.Viewnum + 1) % 2 ^ 64
                                 Primary := vs.currentView.Primary, Backup := "" } }) ∧
      vs1.currentView = { Viewnum := (vs.currentView.Viewnum + 1) % 2 ^ 64
                          Primary := vs.currentView.Primary, Backup := "" } ∧
      (vs.currentView.Viewnum < 2 ^ 64 - 1 →
        vs1.currentView = { Viewnum := vs.currentView.Viewnum + 1
                            Primary := vs.currentView.Primary, Backup := "" }) ∧
      vs1.acknowledged = false := by
  have hPB : vs.currentView.Primary ≠ vs.currentView.Backup := by
    intro e
    rw [e, hb] at hp
    simp only [Option.some.injEq] at hp
    rw [hp, halive] at hdead
    exact absurd hdead (by simp)
  have hlt : vs.currentView.Viewnum < 2 ^ 64 - 1 →
      (vs.currentView.Viewnum + 1) % 2 ^ 64 = vs.currentView.Viewnum + 1 :=
    fun h => Nat.mod_eq_of_lt (by omega)
  rw [Ping_of_acknowledged DeadPings PingInterval vs args now order p
    (by simp [Known, hp]) (by simp [Known, hb]) hPB (Or.inl hack) hp,
    pingPromote_of_healthy _ _ _ _ _ _ halive hinit]
  simp only
  have hbk : pingBackup DeadPings PingInterval
      { pingRecord vs args now with acknowledged := true } now order false
      = some ({ pingRecord vs args now with
                  currentView := { Viewnum := uintIncr vs.currentView.Viewnum
                                   Primary := vs.currentView.Primary, Backup := "" }
                  acknowledged := false }, true) := by
    unfold pingBackup
    rw [if_pos (by simpa [pingRecord] using hB)]
    simp only [pingRecord] at hb ⊢
    simp [hb, hdead, bumpView]
  rw [hbk]
  refine ⟨_, rfl, rfl, fun h => ?_, rfl⟩
  simp only [uintIncr, hlt h]

/-- Witness for C9: the acknowledged view `{2, "a", "b"}` whose backup `"b"`
was last heard at instant 0, pinged by `"c"` at instant 1000; the alive idle
server `"c"` is not installed. -/
theorem ping_drops_dead_backup_witness :
    ∃ vs1, Ping 5 100 ⟨⟨2, "a", "b"⟩, [("a", ⟨900, 2⟩), ("b", ⟨0, 2⟩)], true⟩
        ⟨"c", 0⟩ 1000 ["c", "a", "b"]
        = some (vs1, { View := { Viewnum := (2 + 1) % 2 ^ 64, Primary := "a", Backup := "" } }) ∧
      vs1.currentView = { Viewnum := (2 + 1) % 2 ^ 64, Primary := "a", Backup := "" } ∧
      (2 < 2 ^ 64 - 1 → vs1.currentView = { Viewnum := 2 + 1, Primary := "a", Backup := "" }) ∧
      vs1.acknowledged = false :=
  ping_drops_dead_backup 5 100 ⟨⟨2, "a", "b"⟩, [("a", ⟨900, 2⟩), ("b", ⟨0, 2⟩)], true⟩
    ⟨"c", 0⟩ 1000 ["c", "a", "b"] ⟨900, 2⟩ ⟨0, 2⟩ rfl (by decide) (by decide) (by decide)
    (by decide) (by decide) (by decide)

/-- C10. Rule 4 in `Ping` (backup fill): in an acknowledged view `{n, P, ""}`
with `P` a known server, a `Ping` from any server `s` other than `P` returns a
view with `Viewnum` `n + 1` (the uint increment: `(n + 1) mod 2 ^ 64`, which is
`n + 1` below the uint maximum), `Primary` `P` and a `Backup` that is a known
server different from `P` and alive at that instant (the test of line 129,
`time.Since(lastPing) <= DeadPings*PingInterval`), and leaves the view
unacknowledged; when `s` is the only alive server other than `P`, the returned
view is exactly `{n + 1, P, s}`. The liveness window `DeadPings * PingInterval`
is non-negative and `range` yields every known server. -/
theorem ping_fills_backup (DeadPings PingInterval : Int) (vs : ViewServerImpl)
    (args : PingArgs) (now : Int) (order : List String)
    (hwin : 0 ≤ DeadPings * PingInterval)
    (hack : vs.acknowledged = true)
    (hB : vs.currentView.Backup = "")
    (hP : Known vs vs.currentView.Primary)
    (hme : args.Me ≠ vs.currentView.Primary)
    (horder : ∀ k, Known (pingRecord vs args now) k → k ∈ order) :
    ∃ vs1 reply st, Ping DeadPings PingInterval vs args now order = some (vs1, reply) ∧
      reply.View = vs1.currentView ∧
      reply.View.Viewnum = (vs.currentView.Viewnum + 1) % 2 ^ 64 ∧
      (vs.currentView.Viewnum < 2 ^ 64 - 1 →
        reply.View.Viewnum = vs.currentView.Viewnum + 1) ∧
      reply.View.Primary = vs.currentView.Primary ∧
      reply.View.Backup ≠ vs.currentView.Primary ∧
      vs1.servers.lookup reply.View.Backup = some st ∧
      expired DeadPings PingInterval now st.lastPing = false ∧
      vs1.acknowledged = false ∧
      ((∀ k st1, k ≠ vs.currentView.Primary → k ≠ args.Me →
          vs1.servers.lookup k = some st1 →
          expired DeadPings PingInterval now st1.lastPing = true) →
        reply.View = { Viewnum := (vs.currentView.Viewnum + 1) % 2 ^ 64
                       Primary := vs.currentView.Primary, Backup := args.Me }) := by
  have hlt : vs.currentView.Viewnum < 2 ^ 64 - 1 →
      (vs.currentView.Viewnum + 1) % 2 ^ 64 = vs.currentView.Viewnum + 1 :=
    fun h => Nat.mod_eq_of_lt (by omega)
  obtain ⟨p, hp0⟩ := Option.isSome_iff_exists.mp hP
  have hp : (pingRecord vs args now).servers.lookup vs.currentView.Primary = some p := by
    simp only [pingRecord]
    rw [GoMap.lookup_store_of_ne _ _ hme]
    exact hp0
  have hs : (pingRecord vs args now).servers.lookup args.Me
      = some { lastPing := now, viewNum := args.Viewnum } := by
    simp only [pingRecord]
    exact GoMap.lookup_store_self _ _ _
  have hnow : expired DeadPings PingInterval now now = false := by
    simp only [expired, sub_self, gt_iff_lt, decide_eq_false_iff_not, not_lt]
    exact hwin
  rw [Ping_of_acknowledged DeadPings PingInterval vs args now order p
    (by simp [Known, hp]) (by simp [Known, hs]) (Ne.symm hme) (Or.inl hack) hp,
    pingPromote_of_no_backup _ _ _ _ _ _ (by simpa [pingRecord] using hB)]
  simp only
  unfold pingBackup
  rw [if_neg (by simp [pingRecord, hB])]
  generalize hr : rangeFind _ _ order = r
  cases r with
  | none =>
    exfalso
    obtain ⟨k1, hk1⟩ := rangeFind_isSome
      (p := fun s sState => decide (s ≠ vs.currentView.Primary) &&
        !expired DeadPings PingInterval now sState.lastPing)
      (horder args.Me (by simp [Known, hs])) hs (by simp [hme, hnow])
    simp only [pingRecord] at hr hk1
    rw [hk1] at hr
    exact absurd hr (by simp)
  | some s =>
    obtain ⟨_, st, hst, hpd⟩ := rangeFind_some hr
    simp only [Bool.and_eq_true, decide_eq_true_eq, Bool.not_eq_true'] at hpd
    refine ⟨_, _, st, rfl, rfl, rfl, hlt, rfl, hpd.1, hst, hpd.2, rfl, fun honly => ?_⟩
    have hsme : s = args.Me := by
      by_contra hne
      have := honly s st hpd.1 hne hst
      rw [hpd.2] at this
      exact absurd this (by simp)
    simp [bumpView, uintIncr, hsme, pingRecord]

/-- Concrete instance for C10: the acknowledged view `{1, "a", ""}`, pinged by the
new server `"b"`: the view becomes `{2, "a", "b"}`. -/
theorem ping_fills_backup_witness :
    ∃ vs1 reply st, Ping 5 100 ⟨⟨1, "a", ""⟩, [("a", ⟨1, 1⟩)], true⟩ ⟨"b", 0⟩ 2 ["a", "b"]
        = some (vs1, reply) ∧
      reply.View = vs1.currentView ∧
      reply.View.Viewnum = (1 + 1) % 2 ^ 64 ∧
      (1 < 2 ^ 64 - 1 → reply.View.Viewnum = 1 + 1) ∧
      reply.View.Primary = "a" ∧
      reply.View.Backup ≠ "a" ∧
      vs1.servers.lookup reply.View.Backup = some st ∧
      expired 5 100 2 st.lastPing = false ∧
      vs1.acknowledged = false ∧
      ((∀ k st1, k ≠ "a" → k ≠ "b" → vs1.servers.lookup k = some st1 →
          expired 5 100 2 st1.lastPing = true) →
        reply.View = { Viewnum := (1 + 1) % 2 ^ 64, Primary := "a", Backup := "b" }) :=
  ping_fills_backup 5 100 ⟨⟨1, "a", ""⟩, [("a", ⟨1, 1⟩)], true⟩ ⟨"b", 0⟩ 2 ["a", "b"]
    (by decide) rfl rfl rfl (by decide)
    (fun k hk => by
      by_cases h1 : "a" = k
      · simp [← h1]
      · by_cases h2 : "b" = k
        · simp [← h2]
        · simp [Known, pingRecord, GoMap.store, GoMap.lookup, h1, h2] at hk)

end viewservice

/-! ## Replica: duplicate detection in `PutAppend` -/

namespace pbservice

theorem lastRequest_applyLocal (pb : PBServer) (args : PutAppendArgs) :
    lastRequest (applyLocal pb args) args.Impl.ClientID = args.Impl.RequestID := by
  simp [lastRequest, applyLocal, GoMap.lookup_store_self]

theorem PutAppend_replay {pb : PBServer} {args : PutAppendArgs}
    (call : String → ForwardPutArgs → ForwardPutReply) (hme : pb.me = pb.impl.Primary)
    (hlast : lastRequest pb args.Impl.ClientID = args.Impl.RequestID) :
    PBServer.PutAppend pb args call = (pb, { Err := OK }) := by
  unfold PBServer.PutAppend
  rw [if_neg (by simpa using hme), if_pos hlast]

/-- C4. Immediate duplicate is idempotent: when a `PutAppend` was answered `OK`
(with no backup, or with a backup whose `ForwardPut` came back `OK`), handling
the identical request again as the very next request is answered `OK` and
leaves the whole replica state, in particular `kvMap` and the at-most-once
table, exactly as it was after the first handling. -/
theorem putAppend_immediate_duplicate (pb : PBServer) (args : PutAppendArgs)
    (call call2 : String → ForwardPutArgs → ForwardPutReply)
    (hok : (PBServer.PutAppend pb args call).2.Err = OK) :
    PBServer.PutAppend (PBServer.PutAppend pb args call).1 args call2
      = ((PBServer.PutAppend pb args call).1, { Err := OK }) := by
  unfold PBServer.PutAppend at hok ⊢
  by_cases hme : pb.me = pb.impl.Primary
  · by_cases hlast : lastRequest pb args.Impl.ClientID = args.Impl.RequestID
    · simp [hme, hlast]
    · have hl := lastRequest_applyLocal pb args
      have hme1 : (applyLocal pb args).me = (applyLocal pb args).impl.Primary := hme
      by_cases hB : pb.impl.Backup = ""
      · simp only [hme, hlast, hB, ne_eq, not_true_eq_false, if_false]
        rw [if_neg (by simpa using hme1), if_pos hl]
      · by_cases hf : (call pb.impl.Backup (forwardArgs args)).Err = OK
        · simp only [hme, hlast, hB, hf, ne_eq, not_true_eq_false, not_false_eq_true,
            if_false, if_true]
          rw [if_neg (by simpa using hme1), if_pos hl]
        · simp only [hme, hlast, hB, hf, ne_eq, not_true_eq_false, not_false_eq_true,
            if_false, if_true] at hok
  · simp only [ne_eq, hme, not_false_eq_true, if_true] at hok
    exact absurd hok (by decide)

/-- Witness for C4: `Append("k", "a")` handled twice by the primary `"A"` with
no backup leaves `k = "a"`, not `"aa"`. -/
theorem putAppend_immediate_duplicate_witness :
    PBServer.PutAppend
        (PBServer.PutAppend ⟨"A", ⟨[], 1, "A", "", []⟩⟩ ⟨"k", "a", ⟨1, 7, "Append"⟩⟩
          (fun _ _ => ⟨""⟩)).1
        ⟨"k", "a", ⟨1, 7, "Append"⟩⟩ (fun _ _ => ⟨""⟩)
      = ((PBServer.PutAppend ⟨"A", ⟨[], 1, "A", "", []⟩⟩ ⟨"k", "a", ⟨1, 7, "Append"⟩⟩
          (fun _ _ => ⟨""⟩)).1, { Err := OK }) ∧
    (PBServer.PutAppend
        (PBServer.PutAppend ⟨"A", ⟨[], 1, "A", "", []⟩⟩ ⟨"k", "a", ⟨1, 7, "Append"⟩⟩
          (fun _ _ => ⟨""⟩)).1
        ⟨"k", "a", ⟨1, 7, "Append"⟩⟩ (fun _ _ => ⟨""⟩)).1.impl.kvMap.lookup "k"
      = some "a" :=
  ⟨putAppend_immediate_duplicate ⟨"A", ⟨[], 1, "A", "", []⟩⟩ ⟨"k", "a", ⟨1, 7, "Append"⟩⟩
    (fun _ _ => ⟨""⟩) (fun _ _ => ⟨""⟩) (by decide), by decide⟩

/-- C3, at the failing input: the primary `"A"` (no backup) applies
`Append("k", "a")` of client 1 with request id 5 and answers `OK`; it then
serves a `Get` of client 1 with request id 6, which overwrites the table entry
of client 1; the retry of the first request is then answered `OK` but applied a
second time, leaving `k = "aa"`. -/
theorem putAppend_stale_retry_reapplied :
    PBServer.PutAppend ⟨"A", ⟨[], 1, "A", "", []⟩⟩ ⟨"k", "a", ⟨1, 5, "Append"⟩⟩
        (fun _ _ => ⟨""⟩)
      = (⟨"A", ⟨[("k", "a")], 1, "A", "", [(1, 5)]⟩⟩, ⟨OK⟩) ∧
    PBServer.Get ⟨"A", ⟨[("k", "a")], 1, "A", "", [(1, 5)]⟩⟩ ⟨"k", ⟨1, 6⟩⟩
        (some ⟨1, "A", ""⟩)
      = (⟨"A", ⟨[("k", "a")], 1, "A", "", [(1, 6)]⟩⟩, some ⟨OK, "a"⟩) ∧
    PBServer.PutAppend ⟨"A", ⟨[("k", "a")], 1, "A", "", [(1, 6)]⟩⟩
        ⟨"k", "a", ⟨1, 5, "Append"⟩⟩ (fun _ _ => ⟨""⟩)
      = (⟨"A", ⟨[("k", "aa")], 1, "A", "", [(1, 5)]⟩⟩, ⟨OK⟩) := by
  decide

/-- C5, at the failing input: one call of `Clerk.PutAppend` and one call of
`Clerk.Get` whose first attempt fails in the transport and whose second attempt
succeeds, with `nrand()` drawing 11 and then 22: the two requests of the same
call carry the request ids 11 and 22. -/
theorem clerk_retry_redraws_requestID :
    ((Clerk.PutAppend ⟨1, 1, "A", 1⟩ "k" "v" "Put"
        [⟨"A", (⟨1, "A", ""⟩, true), 11, false, ⟨""⟩⟩,
         ⟨"A", (⟨1, "A", ""⟩, true), 22, true, ⟨OK⟩⟩]).sent.map
      (fun r => r.2.Impl.RequestID)) = [11, 22] ∧
    ((Clerk.Get ⟨1, 1, "A", 1⟩ "k"
        [⟨"A", (⟨1, "A", ""⟩, true), 11, false, ⟨"", ""⟩⟩,
         ⟨"A", (⟨1, "A", ""⟩, true), 22, true, ⟨OK, "v"⟩⟩]).sent.map
      (fun r => r.2.Impl.RequestID)) = [11, 22] := by
  decide

/-! ## Replica: rejections, reads and the forwarded write -/

/-- C11. Forward failure is atomic: on a replica that is the locally-known
primary with a non-empty local backup, for a `PutAppend` that is not a replay
whose `ForwardPut` does not come back with `OK`, the replica state (in
particular `kvMap` and the at-most-once table) is unchanged and the reply `Err`
is the `Err` of the forward reply, which is not `OK`. -/
theorem putAppend_forward_failure (pb : PBServer) (args : PutAppendArgs)
    (call : String → ForwardPutArgs → ForwardPutReply)
    (hme : pb.me = pb.impl.Primary) (hB : pb.impl.Backup ≠ "")
    (hnew : lastRequest pb args.Impl.ClientID ≠ args.Impl.RequestID)
    (hfail : (call pb.impl.Backup (forwardArgs args)).Err ≠ OK) :
    PBServer.PutAppend pb args call
        = (pb, { Err := (call pb.impl.Backup (forwardArgs args)).Err }) ∧
      (PBServer.PutAppend pb args call).1.impl.kvMap = pb.impl.kvMap ∧
      (PBServer.PutAppend pb args call).1.impl.LastRequestProcessed
        = pb.impl.LastRequestProcessed ∧
      (PBServer.PutAppend pb args call).2.Err ≠ OK := by
  have h : PBServer.PutAppend pb args call
      = (pb, { Err := (call pb.impl.Backup (forwardArgs args)).Err }) := by
    unfold PBServer.PutAppend
    rw [if_neg (by simpa using hme), if_neg hnew, if_pos hB]
    simp only
    rw [if_neg hfail]
  rw [h]
  exact ⟨rfl, rfl, rfl, hfail⟩

/-- Witness for C11: primary `"A"` with backup `"B"`; the transport fails and the
forward reply stays zero-valued, and the backup rejects with `ErrWrongServer`. -/
theorem putAppend_forward_failure_witness :
    (PBServer.PutAppend ⟨"A", ⟨[("k", "a")], 2, "A", "B", [(1, 5)]⟩⟩
          ⟨"k", "b", ⟨1, 6, "Append"⟩⟩ (fun _ _ => ⟨""⟩)
        = (⟨"A", ⟨[("k", "a")], 2, "A", "B", [(1, 5)]⟩⟩, { Err := "" }) ∧
      (PBServer.PutAppend ⟨"A", ⟨[("k", "a")], 2, "A", "B", [(1, 5)]⟩⟩
          ⟨"k", "b", ⟨1, 6, "Append"⟩⟩ (fun _ _ => ⟨""⟩)).1.impl.kvMap = [("k", "a")] ∧
      (PBServer.PutAppend ⟨"A", ⟨[("k", "a")], 2, "A", "B", [(1, 5)]⟩⟩
          ⟨"k", "b", ⟨1, 6, "Append"⟩⟩ (fun _ _ => ⟨""⟩)).1.impl.LastRequestProcessed
        = [(1, 5)] ∧
      (PBServer.PutAppend ⟨"A", ⟨[("k", "a")], 2, "A", "B", [(1, 5)]⟩⟩
          ⟨"k", "b", ⟨1, 6, "Append"⟩⟩ (fun _ _ => ⟨""⟩)).2.Err ≠ OK) ∧
    (PBServer.PutAppend ⟨"A", ⟨[("k", "a")], 2, "A", "B", [(1, 5)]⟩⟩
        ⟨"k", "b", ⟨1, 6, "Append"⟩⟩ (fun _ _ => ⟨ErrWrongServer⟩)).2.Err
      = ErrWrongServer :=
  ⟨putAppend_forward_failure ⟨"A", ⟨[("k", "a")], 2, "A", "B", [(1, 5)]⟩⟩
      ⟨"k", "b", ⟨1, 6, "Append"⟩⟩ (fun _ _ => ⟨""⟩) rfl (by decide) (by decide) (by decide),
    by decide⟩

/-- C12. Role checks reject atomically: a `Get` whose re-ping names a primary
other than `me`, a `PutAppend` when the locally-known primary is not `me`, and
a `ForwardPut` or `ForwardDatabase` when the locally-known backup is not `me`
each reply `ErrWrongServer` and leave the whole replica state (`kvMap`, the
at-most-once table and the local view) unchanged. -/
theorem role_checks_reject (pb : PBServer) :
    (∀ (args : GetArgs) (realView : viewservice.View), pb.me ≠ realView.Primary →
      PBServer.Get pb args (some realView)
        = (pb, some { Err := ErrWrongServer, Value := "" })) ∧
    (∀ (args : PutAppendArgs) (call : String → ForwardPutArgs → ForwardPutReply),
      pb.me ≠ pb.impl.Primary →
      PBServer.PutAppend pb args call = (pb, { Err := ErrWrongServer })) ∧
    (∀ (args : ForwardPutArgs), pb.me ≠ pb.impl.Backup →
      PBServer.ForwardPut pb args = (pb, { Err := ErrWrongServer })) ∧
    (∀ (args : ForwardDatabaseArgs), pb.me ≠ pb.impl.Backup →
      PBServer.ForwardDatabase pb args = (pb, { Err := ErrWrongServer })) := by
  refine ⟨fun args rv h => ?_, fun args call h => ?_, fun args h => ?_, fun args h => ?_⟩
  · simp only [PBServer.Get]
    rw [if_pos h]
  · unfold PBServer.PutAppend
    rw [if_pos h]
  · unfold PBServer.ForwardPut
    rw [if_pos h]
  · unfold PBServer.ForwardDatabase
    rw [if_pos h]

/-- Witness for C12: the idle replica `"C"` in the local view `{2, "A", "B"}`. -/
theorem role_checks_reject_witness :
    PBServer.Get ⟨"C", ⟨[("k", "a")], 2, "A", "B", [(1, 5)]⟩⟩ ⟨"k", ⟨1, 6⟩⟩
        (some ⟨2, "A", "B"⟩)
      = (⟨"C", ⟨[("k", "a")], 2, "A", "B", [(1, 5)]⟩⟩, some ⟨ErrWrongServer, ""⟩) ∧
    PBServer.PutAppend ⟨"C", ⟨[("k", "a")], 2, "A", "B", [(1, 5)]⟩⟩
        ⟨"k", "b", ⟨1, 6, "Put"⟩⟩ (fun _ _ => ⟨OK⟩)
      = (⟨"C", ⟨[("k", "a")], 2, "A", "B", [(1, 5)]⟩⟩, ⟨ErrWrongServer⟩) ∧
    PBServer.ForwardPut ⟨"C", ⟨[("k", "a")], 2, "A", "B", [(1, 5)]⟩⟩
        ⟨1, 6, "Put", "k", "b"⟩
      = (⟨"C", ⟨[("k", "a")], 2, "A", "B", [(1, 5)]⟩⟩, ⟨ErrWrongServer⟩) ∧
    PBServer.ForwardDatabase ⟨"C", ⟨[("k", "a")], 2, "A", "B", [(1, 5)]⟩⟩ ⟨[("x", "y")]⟩
      = (⟨"C", ⟨[("k", "a")], 2, "A", "B", [(1, 5)]⟩⟩, ⟨ErrWrongServer⟩) :=
  ⟨(role_checks_reject ⟨"C", ⟨[("k", "a")], 2, "A", "B", [(1, 5)]⟩⟩).1 _ _ (by decide),
   (role_checks_reject ⟨"C", ⟨[("k", "a")], 2, "A", "B", [(1, 5)]⟩⟩).2.1 _ _ (by decide),
   (role_checks_reject ⟨"C", ⟨[("k", "a")], 2, "A", "B", [(1, 5)]⟩⟩).2.2.1 _ (by decide),
   (role_checks_reject ⟨"C", ⟨[("k", "a")], 2, "A", "B", [(1, 5)]⟩⟩).2.2.2 _ (by decide)⟩

/-- C13. Get result: a `Get` handled while the re-ping names `me` as primary
replies with the value stored under the key in `kvMap`, or the empty string if
the key is absent; `Err` is `OK` whenever the key is present and is `ErrNoKey`
only when the key is absent (it is one of the two); `kvMap` is unchanged. -/
theorem get_result (pb : PBServer) (args : GetArgs) (realView : viewservice.View)
    (hme : pb.me = realView.Primary) :
    ∃ reply, (PBServer.Get pb args (some realView)).2 = some reply ∧
      reply.Value = (pb.impl.kvMap.lookup args.Key).getD "" ∧
      ((pb.impl.kvMap.lookup args.Key).isSome = true → reply.Err = OK) ∧
      (reply.Err = ErrNoKey → pb.impl.kvMap.lookup args.Key = none) ∧
      (reply.Err = OK ∨ reply.Err = ErrNoKey) ∧
      (PBServer.Get pb args (some realView)).1.impl.kvMap = pb.impl.kvMap := by
  simp only [PBServer.Get]
  rw [if_neg (by simpa using hme)]
  have hfresh : ∀ reply : GetReply,
      (match pb.impl.kvMap.lookup args.Key with
        | some val => some ({ Err := OK, Value := val } : GetReply)
        | none => some { Err := ErrNoKey, Value := "" }) = some reply →
      reply.Value = (pb.impl.kvMap.lookup args.Key).getD "" ∧
      ((pb.impl.kvMap.lookup args.Key).isSome = true → reply.Err = OK) ∧
      (reply.Err = ErrNoKey → pb.impl.kvMap.lookup args.Key = none) ∧
      (reply.Err = OK ∨ reply.Err = ErrNoKey) := by
    intro reply hr
    cases hk : pb.impl.kvMap.lookup args.Key with
    | none =>
      rw [hk] at hr
      simp only [Option.some.injEq] at hr
      subst hr
      exact ⟨rfl, fun h => absurd h (by simp), fun _ => rfl, Or.inr rfl⟩
    | some val =>
      rw [hk] at hr
      simp only [Option.some.injEq] at hr
      subst hr
      exact ⟨rfl, fun _ => rfl, fun h => absurd (show OK = ErrNoKey from h) (by decide),
        Or.inl rfl⟩
  have hsome : ∃ reply : GetReply,
      (match pb.impl.kvMap.lookup args.Key with
        | some val => some ({ Err := OK, Value := val } : GetReply)
        | none => some { Err := ErrNoKey, Value := "" }) = some reply := by
    cases pb.impl.kvMap.lookup args.Key with
    | none => exact ⟨_, rfl⟩
    | some val => exact ⟨_, rfl⟩
  obtain ⟨r0, hr0⟩ := hsome
  obtain ⟨f1, f2, f3, f4⟩ := hfresh r0 hr0
  split
  · rename_i lastReq _
    split
    · refine ⟨_, rfl, rfl, fun _ => rfl,
        fun h => absurd (show OK = ErrNoKey from h) (by decide), Or.inl rfl, rfl⟩
    · exact ⟨r0, hr0, f1, f2, f3, f4, rfl⟩
  · exact ⟨r0, hr0, f1, f2, f3, f4, rfl⟩

/-- Witness for C13: the primary `"A"` reads a present key, and an absent key
both as a fresh request and as a replay. -/
theorem get_result_witness :
    (∃ reply, (PBServer.Get ⟨"A", ⟨[("k", "a")], 1, "A", "", [(1, 5)]⟩⟩ ⟨"k", ⟨1, 6⟩⟩
          (some ⟨1, "A", ""⟩)).2 = some reply ∧
      reply.Value = ((GoMap.lookup [("k", "a")] "k").getD "") ∧
      ((GoMap.lookup [("k", "a")] "k").isSome = true → reply.Err = OK) ∧
      (reply.Err = ErrNoKey → GoMap.lookup [("k", "a")] "k" = none) ∧
      (reply.Err = OK ∨ reply.Err = ErrNoKey) ∧
      (PBServer.Get ⟨"A", ⟨[("k", "a")], 1, "A", "", [(1, 5)]⟩⟩ ⟨"k", ⟨1, 6⟩⟩
          (some ⟨1, "A", ""⟩)).1.impl.kvMap = [("k", "a")]) ∧
    (PBServer.Get ⟨"A", ⟨[("k", "a")], 1, "A", "", [(1, 5)]⟩⟩ ⟨"k", ⟨1, 6⟩⟩
        (some ⟨1, "A", ""⟩)).2 = some ⟨OK, "a"⟩ ∧
    (PBServer.Get ⟨"A", ⟨[("k", "a")], 1, "A", "", [(1, 5)]⟩⟩ ⟨"x", ⟨1, 6⟩⟩
        (some ⟨1, "A", ""⟩)).2 = some ⟨ErrNoKey, ""⟩ ∧
    (PBServer.Get ⟨"A", ⟨[("k", "a")], 1, "A", "", [(1, 5)]⟩⟩ ⟨"x", ⟨1, 5⟩⟩
        (some ⟨1, "A", ""⟩)).2 = some ⟨OK, ""⟩ :=
  ⟨get_result ⟨"A", ⟨[("k", "a")], 1, "A", "", [(1, 5)]⟩⟩ ⟨"k", ⟨1, 6⟩⟩ ⟨1, "A", ""⟩ rfl,
    by decide, by decide, by decide⟩

theorem lookup_applyWrite_put (kvMap : GoMap String String) (key value : String) :
    (applyWrite kvMap "Put" key value).lookup key = some value := by
  simp [applyWrite, GoMap.lookup_store_self]

/-- C14. Put/Get round trip: on a replica that is primary locally and in the
view returned by the re-ping, with no backup or with a backup whose
`ForwardPut` comes back `OK`, a `Put` of `(k, v)` that is applied (not a
replay) is answered `OK`, and a `Get` of `k` handled immediately afterwards
replies `Value = v` with `Err = OK`, for every request id of the `Get` and
every client. -/
theorem put_get_round_trip (pb : PBServer) (args : PutAppendArgs)
    (call : String → ForwardPutArgs → ForwardPutReply) (gargs : GetArgs)
    (realView : viewservice.View)
    (hme : pb.me = pb.impl.Primary) (hview : pb.me = realView.Primary)
    (hop : args.Impl.Operation = "Put")
    (hnew : lastRequest pb args.Impl.ClientID ≠ args.Impl.RequestID)
    (hfwd : pb.impl.Backup = "" ∨ (call pb.impl.Backup (forwardArgs args)).Err = OK)
    (hkey : gargs.Key = args.Key) :
    (PBServer.PutAppend pb args call).2.Err = OK ∧
    (PBServer.Get (PBServer.PutAppend pb args call).1 gargs (some realView)).2
      = some { Err := OK, Value := args.Value } := by
  have hput : PBServer.PutAppend pb args call = (applyLocal pb args, { Err := OK }) := by
    unfold PBServer.PutAppend
    rw [if_neg (by simpa using hme), if_neg hnew]
    by_cases hB : pb.impl.Backup = ""
    · rw [if_neg (by simpa using hB)]
    · rw [if_pos hB]
      simp only
      rw [if_pos (hfwd.resolve_left hB)]
  rw [hput]
  refine ⟨rfl, ?_⟩
  have hk : (applyLocal pb args).impl.kvMap.lookup gargs.Key = some args.Value := by
    rw [hkey]
    simp only [applyLocal, hop]
    exact lookup_applyWrite_put _ _ _
  have hme1 : (applyLocal pb args).me = realView.Primary := hview
  simp only [PBServer.Get]
  rw [if_neg (by simpa using hme1)]
  split
  · split
    · simp [hk]
    · simp [hk]
  · simp [hk]

/-- Witness for C14: the primary `"A"` with no backup applies `Put("x", "1")`
and the same client reads `"1"`. -/
theorem put_get_round_trip_witness :
    (PBServer.PutAppend ⟨"A", ⟨[], 1, "A", "", []⟩⟩ ⟨"x", "1", ⟨1, 7, "Put"⟩⟩
        (fun _ _ => ⟨""⟩)).2.Err = OK ∧
    (PBServer.Get (PBServer.PutAppend ⟨"A", ⟨[], 1, "A", "", []⟩⟩ ⟨"x", "1", ⟨1, 7, "Put"⟩⟩
        (fun _ _ => ⟨""⟩)).1 ⟨"x", ⟨1, 8⟩⟩ (some ⟨1, "A", ""⟩)).2
      = some { Err := OK, Value := "1" } :=
  put_get_round_trip ⟨"A", ⟨[], 1, "A", "", []⟩⟩ ⟨"x", "1", ⟨1, 7, "Put"⟩⟩
    (fun _ _ => ⟨""⟩) ⟨"x", ⟨1, 8⟩⟩ ⟨1, "A", ""⟩ rfl rfl rfl (by decide) (Or.inl rfl) rfl

/-- C15. Replica view transition needs a successful transfer: in the replica's
`tick`, when the view service returns a view strictly newer than the local
view number that names `me` as primary and has a non-empty backup, the replica
adopts the returned view if and only if `ForwardDatabase` to that backup comes
back `OK`, and then the follow-up ping carries the new view number; otherwise
the replica state is unchanged and the follow-up ping carries the old view
number. The full `kvMap` is forwarded to the new backup in both cases. -/
theorem tick_adopts_iff_transfer (pb : PBServer) (realView : viewservice.View)
    (call : String → ForwardDatabaseArgs → ForwardDatabaseReply)
    (hme : realView.Primary = pb.me) (hnew : pb.impl.Viewnum < realView.Viewnum)
    (hB : realView.Backup ≠ "") :
    (((PBServer.tick pb (some realView) call).pb.impl.Viewnum = realView.Viewnum ∧
        (PBServer.tick pb (some realView) call).pb.impl.Primary = realView.Primary ∧
        (PBServer.tick pb (some realView) call).pb.impl.Backup = realView.Backup) ↔
      (call realView.Backup { Data := pb.impl.kvMap }).Err = OK) ∧
    ((call realView.Backup { Data := pb.impl.kvMap }).Err = OK →
      (PBServer.tick pb (some realView) call).pings
        = [pb.impl.Viewnum, realView.Viewnum] ∧
      (PBServer.tick pb (some realView) call).pb.impl.kvMap = pb.impl.kvMap ∧
      (PBServer.tick pb (some realView) call).pb.impl.LastRequestProcessed
        = pb.impl.LastRequestProcessed) ∧
    ((call realView.Backup { Data := pb.impl.kvMap }).Err ≠ OK →
      (PBServer.tick pb (some realView) call).pb = pb ∧
      (PBServer.tick pb (some realView) call).pings
        = [pb.impl.Viewnum, pb.impl.Viewnum]) ∧
    (PBServer.tick pb (some realView) call).forwards
      = [(realView.Backup, { Data := pb.impl.kvMap })] := by
  by_cases hok : (call realView.Backup { Data := pb.impl.kvMap }).Err = OK
  · have ht : PBServer.tick pb (some realView) call =
        { pb := { pb with impl := { pb.impl with
                    Viewnum := realView.Viewnum
                    Primary := realView.Primary
                    Backup := realView.Backup } }
          pings := [pb.impl.Viewnum, realView.Viewnum]
          forwards := [(realView.Backup, { Data := pb.impl.kvMap })] } := by
      simp only [PBServer.tick]
      rw [if_pos ⟨hme, hnew⟩, if_pos hB, if_pos hok]
    rw [ht]
    exact ⟨⟨fun _ => hok, fun _ => ⟨rfl, rfl, rfl⟩⟩, fun _ => ⟨rfl, rfl, rfl⟩,
      fun h => absurd hok h, rfl⟩
  · have ht : PBServer.tick pb (some realView) call =
        { pb := pb
          pings := [pb.impl.Viewnum, pb.impl.Viewnum]
          forwards := [(realView.Backup, { Data := pb.impl.kvMap })] } := by
      simp only [PBServer.tick]
      rw [if_pos ⟨hme, hnew⟩, if_pos hB, if_neg hok]
    rw [ht]
    refine ⟨⟨fun h => ?_, fun h => absurd h hok⟩, fun h => absurd h hok,
      fun _ => ⟨rfl, rfl⟩, rfl⟩
    have h1 : pb.impl.Viewnum = realView.Viewnum := h.1
    omega

/-- Witness for C15: the replica `"A"` at local view 1 learns the view
`{2, "A", "B"}`; the transfer to `"B"` fails in the transport, so `"A"` stays at
view 1 and pings 1 again. -/
theorem tick_adopts_iff_transfer_witness :
    (((PBServer.tick ⟨"A", ⟨[("k", "a")], 1, "A", "", []⟩⟩ (some ⟨2, "A", "B"⟩)
          (fun _ _ => ⟨""⟩)).pb.impl.Viewnum = 2 ∧
        (PBServer.tick ⟨"A", ⟨[("k", "a")], 1, "A", "", []⟩⟩ (some ⟨2, "A", "B"⟩)
          (fun _ _ => ⟨""⟩)).pb.impl.Primary = "A" ∧
        (PBServer.tick ⟨"A", ⟨[("k", "a")], 1, "A", "", []⟩⟩ (some ⟨2, "A", "B"⟩)
          (fun _ _ => ⟨""⟩)).pb.impl.Backup = "B") ↔
      ("" : Err) = OK) ∧
    (("" : Err) = OK →
      (PBServer.tick ⟨"A", ⟨[("k", "a")], 1, "A", "", []⟩⟩ (some ⟨2, "A", "B"⟩)
          (fun _ _ => ⟨""⟩)).pings = [1, 2] ∧
      (PBServer.tick ⟨"A", ⟨[("k", "a")], 1, "A", "", []⟩⟩ (some ⟨2, "A", "B"⟩)
          (fun _ _ => ⟨""⟩)).pb.impl.kvMap = [("k", "a")] ∧
      (PBServer.tick ⟨"A", ⟨[("k", "a")], 1, "A", "", []⟩⟩ (some ⟨2, "A", "B"⟩)
          (fun _ _ => ⟨""⟩)).pb.impl.LastRequestProcessed = []) ∧
    (("" : Err) ≠ OK →
      (PBServer.tick ⟨"A", ⟨[("k", "a")], 1, "A", "", []⟩⟩ (some ⟨2, "A", "B"⟩)
          (fun _ _ => ⟨""⟩)).pb = ⟨"A", ⟨[("k", "a")], 1, "A", "", []⟩⟩ ∧
      (PBServer.tick ⟨"A", ⟨[("k", "a")], 1, "A", "", []⟩⟩ (some ⟨2, "A", "B"⟩)
          (fun _ _ => ⟨""⟩)).pings = [1, 1]) ∧
    (PBServer.tick ⟨"A", ⟨[("k", "a")], 1, "A", "", []⟩⟩ (some ⟨2, "A", "B"⟩)
        (fun _ _ => ⟨""⟩)).forwards = [("B", { Data := [("k", "a")] })] :=
  tick_adopts_iff_transfer ⟨"A", ⟨[("k", "a")], 1, "A", "", []⟩⟩ ⟨2, "A", "B"⟩
    (fun _ _ => ⟨""⟩) rfl (by decide) (by decide)

theorem lastRequest_store (pb : PBServer) (c : Int) (r : Int) (m : GoMap String String) :
    lastRequest { pb with impl := { pb.impl with
        kvMap := m
        LastRequestProcessed := pb.impl.LastRequestProcessed.store c r } } c = r := by
  simp [lastRequest, GoMap.lookup_store_self]

/-- `PutAppendIn` runs `PBServer.PutAppend`: the replica state and the reply are
those of `PBServer.PutAppend` given the replies the world returns. -/
theorem PutAppendIn_eq_PutAppend {ω : Type} (pb : PBServer) (args : PutAppendArgs) (w : ω)
    (call : ω → String → ForwardPutArgs → ω × ForwardPutReply) :
    ((PBServer.PutAppendIn pb args w call).1, (PBServer.PutAppendIn pb args w call).2.1)
      = PBServer.PutAppend pb args (fun srv fa => (call w srv fa).2) := by
  unfold PBServer.PutAppendIn PBServer.PutAppend
  split
  · rfl
  · split
    · rfl
    · split
      · simp only
        split <;> rfl
      · rfl

/-- C16. Primary and backup stay converged on a write: for a primary `P` whose
local backup is `B`, and a replica `B` that knows itself as backup, with equal
`kvMap`s and equal at-most-once entries for the request's client, a `PutAppend`
handled at `P`, whose `ForwardPut` the transport delivers to `B`, is answered
`OK` and leaves `P`'s `kvMap` equal to `B`'s `kvMap` and the entries for the
client equal, where `B`'s state is the one the calls made by `PutAppend` left
behind. A replay changes neither replica; otherwise `B` is left in the state
in which it handled the forwarded request: the write is applied to its
`kvMap` and the request id is recorded in its table, and `P` applied the same
write. -/
theorem write_keeps_replicas_converged (pP pB : PBServer) (args : PutAppendArgs)
    (hP : pP.me = pP.impl.Primary) (hPB : pP.impl.Backup = pB.me)
    (hB : pB.me = pB.impl.Backup) (hne : pB.me ≠ "")
    (hkv : pP.impl.kvMap = pB.impl.kvMap)
    (hlast : lastRequest pP args.Impl.ClientID = lastRequest pB args.Impl.ClientID) :
    (PBServer.PutAppendIn pP args pB deliverForwardPut).2.1.Err = OK ∧
    (PBServer.PutAppendIn pP args pB deliverForwardPut).1.impl.kvMap
      = (PBServer.PutAppendIn pP args pB deliverForwardPut).2.2.impl.kvMap ∧
    lastRequest (PBServer.PutAppendIn pP args pB deliverForwardPut).1 args.Impl.ClientID
      = lastRequest (PBServer.PutAppendIn pP args pB deliverForwardPut).2.2
          args.Impl.ClientID ∧
    (lastRequest pP args.Impl.ClientID = args.Impl.RequestID →
      (PBServer.PutAppendIn pP args pB deliverForwardPut).1 = pP ∧
      (PBServer.PutAppendIn pP args pB deliverForwardPut).2.2 = pB) ∧
    (lastRequest pP args.Impl.ClientID ≠ args.Impl.RequestID →
      (PBServer.PutAppendIn pP args pB deliverForwardPut).2.2
        = (PBServer.ForwardPut pB (forwardArgs args)).1 ∧
      (PBServer.PutAppendIn pP args pB deliverForwardPut).2.2.impl.kvMap
        = applyWrite pB.impl.kvMap args.Impl.Operation args.Key args.Value ∧
      (PBServer.PutAppendIn pP args pB deliverForwardPut).2.2.impl.LastRequestProcessed.lookup
          args.Impl.ClientID = some args.Impl.RequestID ∧
      (PBServer.PutAppendIn pP args pB deliverForwardPut).1.impl.kvMap
        = applyWrite pP.impl.kvMap args.Impl.Operation args.Key args.Value ∧
      (PBServer.PutAppendIn pP args pB deliverForwardPut).1.impl.LastRequestProcessed.lookup
          args.Impl.ClientID = some args.Impl.RequestID) := by
  by_cases hrep : lastRequest pP args.Impl.ClientID = args.Impl.RequestID
  · have hrun : PBServer.PutAppendIn pP args pB deliverForwardPut = (pP, { Err := OK }, pB) := by
      unfold PBServer.PutAppendIn
      rw [if_neg (by simpa using hP), if_pos hrep]
    rw [hrun]
    exact ⟨rfl, hkv, hlast, fun _ => ⟨rfl, rfl⟩, fun hn => absurd hrep hn⟩
  · have hrepB : ¬ lastRequest pB (forwardArgs args).ClientID = (forwardArgs args).RequestID := by
      simpa [forwardArgs, ← hlast] using hrep
    have hfp : PBServer.ForwardPut pB (forwardArgs args) =
        ({ pB with impl := { pB.impl with
            kvMap := applyWrite pB.impl.kvMap args.Impl.Operation args.Key args.Value
            LastRequestProcessed :=
              pB.impl.LastRequestProcessed.store args.Impl.ClientID args.Impl.RequestID } },
          { Err := OK }) := by
      unfold PBServer.ForwardPut
      rw [if_neg (by simpa using hB), if_neg hrepB]
      rfl
    have hdel : deliverForwardPut pB pP.impl.Backup (forwardArgs args)
        = PBServer.ForwardPut pB (forwardArgs args) := by
      unfold deliverForwardPut
      rw [if_pos hPB]
    have hbk : pP.impl.Backup ≠ "" := by rw [hPB]; exact hne
    have hrun : PBServer.PutAppendIn pP args pB deliverForwardPut
        = (applyLocal pP args, { Err := OK }, (PBServer.ForwardPut pB (forwardArgs args)).1) := by
      unfold PBServer.PutAppendIn
      rw [if_neg (by simpa using hP), if_neg hrep, if_pos hbk]
      simp only [hdel, hfp, if_true]
    rw [hrun, hfp]
    refine ⟨rfl, ?_, ?_, fun h => absurd h hrep, fun _ => ⟨rfl, rfl, ?_, rfl, ?_⟩⟩
    · simp only [applyLocal, hkv]
    · rw [lastRequest_applyLocal, lastRequest_store]
    · exact GoMap.lookup_store_self _ _ _
    · simp only [applyLocal]
      exact GoMap.lookup_store_self _ _ _

/-- Witness for C16: primary `"A"` and backup `"B"` holding `k = "a"` and the
entry 5 for client 1; `Append("k", "b")` with request id 6 is answered `OK`
and leaves both replicas with `k = "ab"` and the entry 6. -/
theorem write_keeps_replicas_converged_witness :
    PBServer.PutAppendIn ⟨"A", ⟨[("k", "a")], 2, "A", "B", [(1, 5)]⟩⟩
        ⟨"k", "b", ⟨1, 6, "Append"⟩⟩ ⟨"B", ⟨[("k", "a")], 2, "A", "B", [(1, 5)]⟩⟩
        deliverForwardPut
      = (⟨"A", ⟨[("k", "ab")], 2, "A", "B", [(1, 6)]⟩⟩, ⟨OK⟩,
          ⟨"B", ⟨[("k", "ab")], 2, "A", "B", [(1, 6)]⟩⟩) ∧
    (PBServer.PutAppendIn ⟨"A", ⟨[("k", "a")], 2, "A", "B", [(1, 5)]⟩⟩
        ⟨"k", "b", ⟨1, 6, "Append"⟩⟩ ⟨"B", ⟨[("k", "a")], 2, "A", "B", [(1, 5)]⟩⟩
        deliverForwardPut).1.impl.kvMap
      = (PBServer.PutAppendIn ⟨"A", ⟨[("k", "a")], 2, "A", "B", [(1, 5)]⟩⟩
        ⟨"k", "b", ⟨1, 6, "Append"⟩⟩ ⟨"B", ⟨[("k", "a")], 2, "A", "B", [(1, 5)]⟩⟩
        deliverForwardPut).2.2.impl.kvMap ∧
    (PBServer.PutAppendIn ⟨"A", ⟨[("k", "a")], 2, "A", "B", [(1, 5)]⟩⟩
        ⟨"k", "b", ⟨1, 6, "Append"⟩⟩ ⟨"B", ⟨[("k", "a")], 2, "A", "B", [(1, 5)]⟩⟩
        deliverForwardPut).2.2
      = (PBServer.ForwardPut ⟨"B", ⟨[("k", "a")], 2, "A", "B", [(1, 5)]⟩⟩
          (forwardArgs ⟨"k", "b", ⟨1, 6, "Append"⟩⟩)).1 :=
  ⟨by decide,
    (write_keeps_replicas_converged ⟨"A", ⟨[("k", "a")], 2, "A", "B", [(1, 5)]⟩⟩
      ⟨"B", ⟨[("k", "a")], 2, "A", "B", [(1, 5)]⟩⟩ ⟨"k", "b", ⟨1, 6, "Append"⟩⟩
      rfl rfl rfl (by decide) rfl rfl).2.1,
    ((write_keeps_replicas_converged ⟨"A", ⟨[("k", "a")], 2, "A", "B", [(1, 5)]⟩⟩
      ⟨"B", ⟨[("k", "a")], 2, "A", "B", [(1, 5)]⟩⟩ ⟨"k", "b", ⟨1, 6, "Append"⟩⟩
      rfl rfl rfl (by decide) rfl rfl).2.2.2.2 (by decide)).1⟩

/-! ## Replica: what the at-most-once table holds -/

/-- C17, at the failing input: the primary `"A"` (no backup) whose table holds 5
for client 1 handles `Put("k", "v")` of client 1 with request id 3; the test of
line 112 is an equality, so the write is applied and line 179 overwrites the
entry: it drops from 5 to 3 and is neither at least the entry before nor the
highest request id applied. -/
theorem table_entry_can_decrease :
    (PBServer.PutAppend ⟨"A", ⟨[], 1, "A", "", [(1, 5)]⟩⟩ ⟨"k", "v", ⟨1, 3, "Put"⟩⟩
        (fun _ _ => ⟨""⟩))
      = (⟨"A", ⟨[("k", "v")], 1, "A", "", [(1, 3)]⟩⟩, ⟨OK⟩) ∧
    ¬ (lastRequest (PBServer.PutAppend ⟨"A", ⟨[], 1, "A", "", [(1, 5)]⟩⟩
          ⟨"k", "v", ⟨1, 3, "Put"⟩⟩ (fun _ _ => ⟨""⟩)).1 1
        ≥ lastRequest ⟨"A", ⟨[], 1, "A", "", [(1, 5)]⟩⟩ 1) := by
  decide

/-- The sibling path of C17: `Get` compares with `>=` (line 70) and so never
lowers an existing entry of the table. -/
theorem get_never_lowers_entry (pb : PBServer) (c : Int) (args : GetArgs)
    (realView : Option viewservice.View) (old : Int)
    (hold : pb.impl.LastRequestProcessed.lookup c = some old) :
    ∃ new, (PBServer.Get pb args realView).1.impl.LastRequestProcessed.lookup c
        = some new ∧ old ≤ new := by
  unfold PBServer.Get
  split
  · exact ⟨old, hold, le_refl _⟩
  · split
    · exact ⟨old, hold, le_refl _⟩
    · split
      · rename_i lastReq hl
        split
        · exact ⟨old, hold, le_refl _⟩
        · rename_i hlt
          simp only [GoMap.lookup_store]
          by_cases hc : args.Impl.ClientID = c
          · rw [if_pos hc]
            rw [hc, hold] at hl
            simp only [Option.some.injEq] at hl
            subst hl
            exact ⟨_, rfl, by omega⟩
          · rw [if_neg hc]
            exact ⟨old, hold, le_refl _⟩
      · rename_i hl
        simp only [GoMap.lookup_store]
        by_cases hc : args.Impl.ClientID = c
        · rw [hc, hold] at hl
          exact absurd hl (by simp)
        · rw [if_neg hc]
          exact ⟨old, hold, le_refl _⟩

end pbservice

/-! ## View service: the rules of `tick` -/

namespace viewservice

/-- C18 refuted as stated: in the acknowledged view `{1, "a", ""}` with `"a"`
alive and exactly one other alive known server `"b"`, `tick` leaves the view
`{1, "a", ""}`, while the rule evaluation of `Ping` run on the same state at the
same instant produces `{2, "a", "b"}`. -/
theorem tick_differs_from_ping_rules :
    (tick 5 100 ⟨⟨1, "a", ""⟩, [("a", ⟨1, 1⟩), ("b", ⟨1, 0⟩)], true⟩ 2
        ["a", "b"] ["a", "b"] ["a", "b"]).currentView = ⟨1, "a", ""⟩ ∧
    (tickAsSpecified 5 100 ⟨⟨1, "a", ""⟩, [("a", ⟨1, 1⟩), ("b", ⟨1, 0⟩)], true⟩ 2
        ["a", "b"]).map (fun v => v.currentView) = some ⟨2, "a", "b"⟩ ∧
    (tick 5 100 ⟨⟨1, "a", ""⟩, [("a", ⟨1, 1⟩), ("b", ⟨1, 0⟩)], true⟩ 2
        ["a", "b"] ["a", "b"] ["a", "b"]).currentView ≠ ⟨2, "a", "b"⟩ := by
  decide

theorem rangeFind_congr {m : GoMap String serverState} {p q : String → serverState → Bool}
    (order : List String) (h : ∀ k st, m.lookup k = some st → p k st = q k st) :
    rangeFind m p order = rangeFind m q order := by
  induction order with
  | nil => rfl
  | cons hd tl ih =>
    unfold rangeFind
    cases hl : m.lookup hd with
    | none => simpa using ih
    | some st => simp only [h hd st hl, ih]

theorem tick_of_known {D P : Int} {vs : ViewServerImpl} {p b : serverState} (now : Int)
    (o1 o2 o3 : List String) (hp : vs.servers.lookup vs.currentView.Primary = some p)
    (hb : vs.servers.lookup vs.currentView.Backup = some b) (hack : vs.acknowledged = true) :
    tick D P vs now o1 o2 o3 =
      (tickBothFailed D P
        (tickBackupFailed D P (tickPrimaryFailed D P vs p b now o1 false).1 p b now o2
          (tickPrimaryFailed D P vs p b now o1 false).2).1 p b now o3
        (tickBackupFailed D P (tickPrimaryFailed D P vs p b now o1 false).1 p b now o2
          (tickPrimaryFailed D P vs p b now o1 false).2).2).1 := by
  unfold tick
  rw [hp, hb]
  simp only [hack, if_true]

theorem tick_primary_failed {D P : Int} {vs : ViewServerImpl} {p b : serverState} (now : Int)
    (o1 o2 o3 : List String) (hp : vs.servers.lookup vs.currentView.Primary = some p)
    (hb : vs.servers.lookup vs.currentView.Backup = some b) (hack : vs.acknowledged = true)
    (hpe : expired D P now p.lastPing = true) (hbe : expired D P now b.lastPing = false)
    (hbv : 0 < b.viewNum) :
    tick D P vs now o1 o2 o3 =
      { vs with
        currentView := { Viewnum := uintIncr vs.currentView.Viewnum
                         Primary := vs.currentView.Backup
                         Backup := idleServer D P vs now false o1 }
        acknowledged := false } := by
  rw [tick_of_known now o1 o2 o3 hp hb hack]
  simp [tickPrimaryFailed, tickBackupFailed, tickBothFailed, hpe, hbe, hbv, bumpView]

/-- When only the primary has failed and the backup is initialised, the rule
evaluation of `Ping` (rules 2 and 4) produces the view `tick` produces, for the
same iteration order. -/
theorem tick_agrees_primary_failed {D P : Int} {vs : ViewServerImpl} {p b : serverState}
    (now : Int) (o1 o2 o3 : List String)
    (hp : vs.servers.lookup vs.currentView.Primary = some p)
    (hb : vs.servers.lookup vs.currentView.Backup = some b) (hack : vs.acknowledged = true)
    (hpe : expired D P now p.lastPing = true) (hbe : expired D P now b.lastPing = false)
    (hbv : 0 < b.viewNum) (hB : vs.currentView.Backup ≠ "") :
    (tickAsSpecified D P vs now o1).map (fun v => v.currentView)
      = some (tick D P vs now o1 o2 o3).currentView := by
  rw [tick_primary_failed now o1 o2 o3 hp hb hack hpe hbe hbv]
  have hprom : pingPromote D P vs p now false
      = some ({ vs with
                  currentView := { Viewnum := uintIncr vs.currentView.Viewnum
                                   Primary := vs.currentView.Backup, Backup := "" }
                  acknowledged := false }, true) := by
    unfold pingPromote
    rw [if_pos (Or.inl hpe), if_pos hB, hb]
    simp [hbv, bumpView]
  have hcongr : rangeFind vs.servers
      (fun s sState => decide (s ≠ vs.currentView.Backup) &&
        !expired D P now sState.lastPing) o1
      = rangeFind vs.servers
        (fun server st => decide (server ≠ vs.currentView.Primary) &&
          decide (server ≠ vs.currentView.Backup) &&
          !expired D P now st.lastPing && (!false || decide (st.viewNum > 0))) o1 := by
    apply rangeFind_congr
    intro k st hk
    by_cases hkp : k = vs.currentView.Primary
    · rw [hkp, hp] at hk
      simp only [Option.some.injEq] at hk
      subst hk
      simp [hpe]
    · simp [hkp]
  unfold tickAsSpecified pingAdvance
  rw [if_pos hack, hp]
  simp only [hprom]
  unfold pingBackup
  simp only [ne_eq, not_true_eq_false, if_false]
  rw [hcongr]
  unfold idleServer
  cases rangeFind vs.servers _ o1 with
  | none => rfl
  | some s => rfl

/-- C18 as amended: `tick` evaluates its own failure rules, and only when the
view is acknowledged and both the primary and the backup of the current view
are known servers; otherwise it leaves the state unchanged, in particular in
an acknowledged view `{n, P, ""}` (the empty id being unknown). With both known:
only the primary dead and the backup initialised: the backup is promoted and an
alive idle server (or none) becomes backup, the view that rules 2 and 4 of
`Ping` produce; only the primary dead and the backup uninitialised: unchanged;
only the backup dead: the backup is replaced by an alive idle server (or
cleared); both dead: an alive initialised idle server (or none) becomes
primary and the backup is cleared; both alive: unchanged. -/
theorem tick_own_rules (DeadPings PingInterval : Int) (vs : ViewServerImpl) (now : Int)
    (order1 order2 order3 : List String) :
    ((vs.acknowledged = false ∨ vs.servers.lookup vs.currentView.Primary = none ∨
        vs.servers.lookup vs.currentView.Backup = none) →
      tick DeadPings PingInterval vs now order1 order2 order3 = vs) ∧
    (∀ p b, vs.servers.lookup vs.currentView.Primary = some p →
      vs.servers.lookup vs.currentView.Backup = some b → vs.acknowledged = true →
      (expired DeadPings PingInterval now p.lastPing = true →
        expired DeadPings PingInterval now b.lastPing = false → 0 < b.viewNum →
        tick DeadPings PingInterval vs now order1 order2 order3 =
            { vs with
              currentView :=
                { Viewnum := (vs.currentView.Viewnum + 1) % 2 ^ 64
                  Primary := vs.currentView.Backup
                  Backup := idleServer DeadPings PingInterval vs now false order1 }
              acknowledged := false } ∧
          (vs.currentView.Backup ≠ "" →
            (tickAsSpecified DeadPings PingInterval vs now order1).map
                (fun v => v.currentView)
              = some (tick DeadPings PingInterval vs now order1 order2 order3).currentView)) ∧
      (expired DeadPings PingInterval now p.lastPing = true →
        expired DeadPings PingInterval now b.lastPing = false → b.viewNum = 0 →
        tick DeadPings PingInterval vs now order1 order2 order3 = vs) ∧
      (expired DeadPings PingInterval now p.lastPing = false →
        expired DeadPings PingInterval now b.lastPing = true →
        tick DeadPings PingInterval vs now order1 order2 order3 =
          { vs with
            currentView :=
              { Viewnum := (vs.currentView.Viewnum + 1) % 2 ^ 64
                Primary := vs.currentView.Primary
                Backup := idleServer DeadPings PingInterval vs now false order2 }
            acknowledged := false }) ∧
      (expired DeadPings PingInterval now p.lastPing = true →
        expired DeadPings PingInterval now b.lastPing = true →
        tick DeadPings PingInterval vs now order1 order2 order3 =
          { vs with
            currentView :=
              { Viewnum := (vs.currentView.Viewnum + 1) % 2 ^ 64
                Primary := idleServer DeadPings PingInterval vs now true order3
                Backup := "" }
            acknowledged := false }) ∧
      (expired DeadPings PingInterval now p.lastPing = false →
        expired DeadPings PingInterval now b.lastPing = false →
        tick DeadPings PingInterval vs now order1 order2 order3 = vs)) := by
  constructor
  · rintro (h | h | h)
    · unfold tick
      split
      · split
        · simp [h]
        · rfl
      · rfl
    · unfold tick
      rw [h]
    · unfold tick
      split
      · rw [h]
      · rfl
  · intro p b hp hb hack
    refine ⟨fun hpe hbe hbv => ⟨?_, fun hB => ?_⟩, fun hpe hbe hbv => ?_, fun hpe hbe => ?_,
      fun hpe hbe => ?_, fun hpe hbe => ?_⟩
    · exact tick_primary_failed now order1 order2 order3 hp hb hack hpe hbe hbv
    · exact tick_agrees_primary_failed now order1 order2 order3 hp hb hack hpe hbe hbv hB
    · rw [tick_of_known now order1 order2 order3 hp hb hack]
      simp [tickPrimaryFailed, tickBackupFailed, tickBothFailed, hpe, hbe, hbv]
    · rw [tick_of_known now order1 order2 order3 hp hb hack]
      simp [tickPrimaryFailed, tickBackupFailed, tickBothFailed, hpe, hbe, bumpView, uintIncr]
    · rw [tick_of_known now order1 order2 order3 hp hb hack]
      simp [tickPrimaryFailed, tickBackupFailed, tickBothFailed, hpe, hbe, bumpView, uintIncr]
    · rw [tick_of_known now order1 order2 order3 hp hb hack]
      simp [tickPrimaryFailed, tickBackupFailed, tickBothFailed, hpe, hbe]

/-- Witness for C18 as amended: `tick` leaves the acknowledged view
`{1, "a", ""}` alone although `"b"` is alive; in the acknowledged view
`{2, "a", "b"}` with `"a"` dead, `"b"` alive and initialised and an alive idle
`"c"`, `tick` produces `{3, "b", "c"}`, as the rules of `Ping` do. -/
theorem tick_own_rules_witness :
    tick 5 100 ⟨⟨1, "a", ""⟩, [("a", ⟨1, 1⟩), ("b", ⟨1, 0⟩)], true⟩ 2
        ["a", "b"] ["a", "b"] ["a", "b"]
      = ⟨⟨1, "a", ""⟩, [("a", ⟨1, 1⟩), ("b", ⟨1, 0⟩)], true⟩ ∧
    tick 5 100 ⟨⟨2, "a", "b"⟩, [("a", ⟨0, 2⟩), ("b", ⟨900, 2⟩), ("c", ⟨950, 0⟩)], true⟩ 1000
        ["a", "b", "c"] ["a", "b", "c"] ["a", "b", "c"]
      = ⟨⟨3, "b", "c"⟩, [("a", ⟨0, 2⟩), ("b", ⟨900, 2⟩), ("c", ⟨950, 0⟩)], false⟩ ∧
    (tickAsSpecified 5 100
        ⟨⟨2, "a", "b"⟩, [("a", ⟨0, 2⟩), ("b", ⟨900, 2⟩), ("c", ⟨950, 0⟩)], true⟩ 1000
        ["a", "b", "c"]).map (fun v => v.currentView)
      = some (tick 5 100
          ⟨⟨2, "a", "b"⟩, [("a", ⟨0, 2⟩), ("b", ⟨900, 2⟩), ("c", ⟨950, 0⟩)], true⟩ 1000
          ["a", "b", "c"] ["a", "b", "c"] ["a", "b", "c"]).currentView :=
  ⟨(tick_own_rules 5 100 ⟨⟨1, "a", ""⟩, [("a", ⟨1, 1⟩), ("b", ⟨1, 0⟩)], true⟩ 2
      ["a", "b"] ["a", "b"] ["a", "b"]).1 (Or.inr (Or.inr (by decide))),
    (((tick_own_rules 5 100
      ⟨⟨2, "a", "b"⟩, [("a", ⟨0, 2⟩), ("b", ⟨900, 2⟩), ("c", ⟨950, 0⟩)], true⟩ 1000
      ["a", "b", "c"] ["a", "b", "c"] ["a", "b", "c"]).2 ⟨0, 2⟩ ⟨900, 2⟩
        (by decide) (by decide) rfl).1 (by decide) (by decide) (by decide)).1,
    (((tick_own_rules 5 100
      ⟨⟨2, "a", "b"⟩, [("a", ⟨0, 2⟩), ("b", ⟨900, 2⟩), ("c", ⟨950, 0⟩)], true⟩ 1000
      ["a", "b", "c"] ["a", "b", "c"] ["a", "b", "c"]).2 ⟨0, 2⟩ ⟨900, 2⟩
        (by decide) (by decide) rfl).1 (by decide) (by decide) (by decide)).2 (by decide)⟩

/-! ## View service: a restarted primary and the promotion of servers -/

/-- C19, at the failing input: in the acknowledged view `{1, "a", ""}` where
`"a"` is the only server that ever pinged, `Ping("a", 0)` passes the bootstrap
test of line 72 again (`len(servers) == 1` and acknowledged) and returns the
new, unacknowledged view `{2, "a", ""}` instead of leaving `{1, "a", ""}`. -/
theorem restarted_sole_primary_bumps_view :
    Ping 5 100 ⟨⟨1, "a", ""⟩, [("a", ⟨1, 1⟩)], true⟩ ⟨"a", 0⟩ 2 ["a"]
      = some (⟨⟨2, "a", ""⟩, [("a", ⟨2, 0⟩)], false⟩, ⟨⟨2, "a", ""⟩⟩) := by
  decide

theorem rangeFind_none {m : GoMap String serverState} {p : String → serverState → Bool}
    (order : List String) (h : ∀ k st, m.lookup k = some st → p k st = false) :
    rangeFind m p order = none := by
  induction order with
  | nil => rfl
  | cons hd tl ih =>
    unfold rangeFind
    cases hl : m.lookup hd with
    | none => simpa using ih
    | some st => simp only [h hd st hl, ih, Bool.false_eq_true, if_false]

/-- The part of C19 the code does satisfy: in an acknowledged view `{n, P, ""}`
with `n ≥ 1` where some server other than `P` is known and no server other than
`P` is alive, a `Ping` from `P` reporting view number 0 leaves the view
unchanged and returns it. -/
theorem restarted_primary_stuck (D P : Int) (vs : ViewServerImpl) (args : PingArgs)
    (now : Int) (order : List String) (q : String)
    (hack : vs.acknowledged = true) (hB : vs.currentView.Backup = "")
    (hme : args.Me = vs.currentView.Primary) (hq : Known vs q)
    (hqp : q ≠ vs.currentView.Primary)
    (hdead : ∀ k st, k ≠ vs.currentView.Primary → vs.servers.lookup k = some st →
      expired D P now st.lastPing = true) :
    ∃ vs1, Ping D P vs args now order = some (vs1, { View := vs.currentView }) ∧
      vs1.currentView = vs.currentView := by
  have hp : (pingRecord vs args now).servers.lookup vs.currentView.Primary
      = some { lastPing := now, viewNum := args.Viewnum } := by
    simp only [pingRecord]
    rw [← hme]
    exact GoMap.lookup_store_self _ _ _
  have hq1 : Known (pingRecord vs args now) q := by
    simp only [Known, pingRecord]
    rw [GoMap.lookup_store_of_ne _ _ (by rw [hme]; exact Ne.symm hqp)]
    exact hq
  rw [Ping_of_acknowledged D P vs args now order _ (by simp [Known, hp]) hq1 (Ne.symm hqp)
    (Or.inl hack) hp, pingPromote_of_no_backup _ _ _ _ _ _ (by simpa [pingRecord] using hB)]
  simp only
  unfold pingBackup
  rw [if_neg (by simp [pingRecord, hB])]
  rw [rangeFind_none]
  · exact ⟨_, rfl, rfl⟩
  · intro k st hk
    by_cases hkp : k = vs.currentView.Primary
    · simp [pingRecord, hkp]
    · simp only [pingRecord] at hk
      rw [GoMap.lookup_store_of_ne _ _ (by rw [hme]; exact Ne.symm hkp)] at hk
      simp [pingRecord, hdead k st hkp hk]

theorem known_pingRecord {vs : ViewServerImpl} (args : PingArgs) (now : Int) {s : String}
    (h : Known vs s) : Known (pingRecord vs args now) s := by
  unfold Known pingRecord
  simp only [GoMap.lookup_store]
  split
  · rfl
  · exact h

/-- What `pingPromote` does to the primary: it keeps it, or replaces it by the
backup, whose recorded view number is positive. The liveness map is untouched. -/
theorem pingPromote_primary {D P : Int} {vs vs1 : ViewServerImpl} {primary : serverState}
    {now : Int} {inc inc1 : Bool}
    (hp : pingPromote D P vs primary now inc = some (vs1, inc1)) :
    vs1.servers = vs.servers ∧
      (vs1.currentView.Primary = vs.currentView.Primary ∨
        ∃ st, vs.servers.lookup vs1.currentView.Primary = some st ∧ 0 < st.viewNum) := by
  unfold pingPromote at hp
  split at hp
  · split at hp
    · split at hp
      · exact absurd hp (by simp)
      · rename_i backup hbk
        split at hp
        · rename_i hpos
          simp only [Option.some.injEq, Prod.mk.injEq] at hp
          obtain ⟨rfl, rfl⟩ := hp
          refine ⟨rfl, Or.inr ⟨backup, ?_, hpos⟩⟩
          cases inc <;> simpa [bumpView] using hbk
        · simp only [Option.some.injEq, Prod.mk.injEq] at hp
          obtain ⟨rfl, rfl⟩ := hp
          exact ⟨rfl, Or.inl rfl⟩
    · simp only [Option.some.injEq, Prod.mk.injEq] at hp
      obtain ⟨rfl, rfl⟩ := hp
      exact ⟨rfl, Or.inl rfl⟩
  · simp only [Option.some.injEq, Prod.mk.injEq] at hp
    obtain ⟨rfl, rfl⟩ := hp
    exact ⟨rfl, Or.inl rfl⟩

theorem pingBackup_primary {D P : Int} {vs vs1 : ViewServerImpl} {now : Int}
    {order : List String} {inc inc1 : Bool}
    (hp : pingBackup D P vs now order inc = some (vs1, inc1)) :
    vs1.servers = vs.servers ∧ vs1.currentView.Primary = vs.currentView.Primary := by
  unfold pingBackup at hp
  split at hp
  · split at hp
    · exact absurd hp (by simp)
    · split at hp
      · simp only [Option.some.injEq, Prod.mk.injEq] at hp
        obtain ⟨rfl, rfl⟩ := hp
        refine ⟨rfl, ?_⟩
        cases inc <;> simp [bumpView]
      · simp only [Option.some.injEq, Prod.mk.injEq] at hp
        obtain ⟨rfl, rfl⟩ := hp
        exact ⟨rfl, rfl⟩
  · split at hp
    · simp only [Option.some.injEq, Prod.mk.injEq] at hp
      obtain ⟨rfl, rfl⟩ := hp
      refine ⟨rfl, ?_⟩
      cases inc <;> simp [bumpView]
    · simp only [Option.some.injEq, Prod.mk.injEq] at hp
      obtain ⟨rfl, rfl⟩ := hp
      exact ⟨rfl, rfl⟩

/-- What the rule evaluation of `Ping` does to the primary: it leaves the state
alone when the primary is unknown, and otherwise keeps the primary or replaces
it by a server whose recorded view number is positive. -/
theorem pingAdvance_primary {D P : Int} {vs vs1 : ViewServerImpl} {now : Int}
    {order : List String} {inc : Bool} (hp : pingAdvance D P vs now order inc = some vs1) :
    vs1.servers = vs.servers ∧
      (vs1 = vs ∨ Known vs vs.currentView.Primary) ∧
      (vs1.currentView.Primary = vs.currentView.Primary ∨
        ∃ st, vs.servers.lookup vs1.currentView.Primary = some st ∧ 0 < st.viewNum) := by
  unfold pingAdvance at hp
  split at hp
  · split at hp
    · rename_i primary hprim
      split at hp
      · exact absurd hp (by simp)
      · rename_i v2 i2 h2
        split at hp
        · exact absurd hp (by simp)
        · rename_i v3 i3 h3
          simp only [Option.some.injEq] at hp
          subst hp
          obtain ⟨hs2, hp2⟩ := pingPromote_primary h2
          obtain ⟨hs3, hp3⟩ := pingBackup_primary h3
          refine ⟨hs3.trans hs2, Or.inr (by simp [Known, hprim]), ?_⟩
          rw [hp3]
          exact hp2
    · simp only [Option.some.injEq] at hp
      subst hp
      exact ⟨rfl, Or.inl rfl, Or.inl rfl⟩
  · simp only [Option.some.injEq] at hp
    subst hp
    exact ⟨rfl, Or.inl rfl, Or.inl rfl⟩

theorem primaryOK_of_known {vs : ViewServerImpl} (h0 : vs.servers.lookup "" = none)
    (hk : Known vs vs.currentView.Primary) : PrimaryOK vs := by
  refine ⟨fun _ => hk, fun he => ?_⟩
  rw [he, Known, h0] at hk
  exact absurd hk (by simp)

theorem primaryOK_Ping {D P : Int} {vs vs1 : ViewServerImpl} {args : PingArgs} {now : Int}
    {order : List String} {reply : PingReply} (h : RolesOK vs) (hpo : PrimaryOK vs)
    (hme : args.Me ≠ "") (hp : Ping D P vs args now order = some (vs1, reply)) :
    PrimaryOK vs1 := by
  have hr0 : RolesOK (pingRecord vs args now) := rolesOK_pingRecord args now h hme
  have hp0 : PrimaryOK (pingRecord vs args now) := by
    refine ⟨fun hne => known_pingRecord args now (hpo.1 hne), fun he => ?_⟩
    rcases hpo.2 he with hv | ⟨a, b, ha, hb, hab⟩
    · exact Or.inl hv
    · exact Or.inr ⟨a, b, known_pingRecord args now ha, known_pingRecord args now hb, hab⟩
  have hr1 : RolesOK (pingBootstrap (pingRecord vs args now) args).1 :=
    rolesOK_pingBootstrap args hr0
  have hp1 : PrimaryOK (pingBootstrap (pingRecord vs args now) args).1 := by
    unfold pingBootstrap
    split
    · split
      · refine primaryOK_of_known ?_ ?_
        · exact hr0.1
        · simp [Known, bumpView, pingRecord, GoMap.lookup_store_self]
      · exact hp0
    · exact hp0
  have hr2 : RolesOK (pingAck (pingBootstrap (pingRecord vs args now) args).1 args) :=
    rolesOK_pingAck args hr1
  have hp2 : PrimaryOK (pingAck (pingBootstrap (pingRecord vs args now) args).1 args) := by
    unfold pingAck
    split
    · exact hp1
    · exact hp1
  unfold Ping at hp
  simp only at hp
  split at hp
  · exact absurd hp (by simp)
  · rename_i vs3 h3
    simp only [Option.some.injEq, Prod.mk.injEq] at hp
    obtain ⟨rfl, _⟩ := hp
    obtain ⟨hs, hsame, hprim⟩ := pingAdvance_primary h3
    rcases hsame with e | hk
    · rw [e]
      exact hp2
    · have h0 : vs3.servers.lookup "" = none := by rw [hs]; exact hr2.1
      apply primaryOK_of_known h0
      rcases hprim with e | ⟨st, hst, _⟩
      · rw [Known, hs, e]
        exact hk
      · rw [Known, hs, hst]
        rfl

theorem primaryOK_tick (D P : Int) {vs : ViewServerImpl} (now : Int)
    (o1 o2 o3 : List String) (h : RolesOK vs) (hpo : PrimaryOK vs) :
    PrimaryOK (tick D P vs now o1 o2 o3) := by
  unfold tick
  split
  · rename_i primary hprim
    split
    · rename_i backup hbk
      split
      · have hkp : Known vs vs.currentView.Primary := by simp [Known, hprim]
        have hkb : Known vs vs.currentView.Backup := by simp [Known, hbk]
        have hb : vs.currentView.Backup ≠ "" := by
          intro e
          rw [e, h.1] at hbk
          exact absurd hbk (by simp)
        have hpb := (h.2 hb).2.2
        cases hp : expired D P now primary.lastPing <;>
          cases hb : expired D P now backup.lastPing
        · simpa [tickPrimaryFailed, tickBackupFailed, tickBothFailed, hp, hb] using hpo
        · simp only [tickPrimaryFailed, tickBackupFailed, tickBothFailed, hp, hb]
          simp only [Bool.false_eq_true, false_and, and_false, if_false, and_self, if_true,
            bumpView]
          exact primaryOK_of_known h.1 hkp
        · simp only [tickPrimaryFailed, tickBackupFailed, tickBothFailed, hp, hb]
          simp only [Bool.false_eq_true, false_and, and_false, if_false, and_self, if_true,
            and_true]
          split
          · simp only [bumpView, Bool.false_eq_true, if_false]
            exact primaryOK_of_known h.1 hkb
          · exact hpo
        · simp only [tickPrimaryFailed, tickBackupFailed, tickBothFailed, hp, hb]
          simp only [Bool.true_eq_false, and_false, false_and, if_false, and_self, if_true,
            bumpView, Bool.false_eq_true]
          rcases idleServer_spec D P vs now true o3 with e | ⟨e1, _, _⟩
          · refine ⟨fun hne => absurd e hne, fun _ => Or.inr ?_⟩
            exact ⟨_, _, hkp, hkb, hpb⟩
          · exact primaryOK_of_known h.1 e1
      · exact hpo
    · exact hpo
  · exact hpo

theorem invariants_of_reachable {D P : Int} {vs : ViewServerImpl} (h : Reachable D P vs) :
    RolesOK vs ∧ PrimaryOK vs := by
  induction h with
  | init =>
    exact ⟨⟨rfl, fun hb => absurd rfl hb⟩, fun hne => absurd rfl hne, fun _ => Or.inl rfl⟩
  | step vs vs1 _ hs ih =>
    cases hs with
    | ping args now order _ reply hme hp =>
      exact ⟨rolesOK_Ping ih.1 hme hp, primaryOK_Ping ih.1 ih.2 hme hp⟩
    | tick now o1 o2 o3 =>
      exact ⟨rolesOK_tick D P now o1 o2 o3 ih.1, primaryOK_tick D P now o1 o2 o3 ih.1 ih.2⟩

theorem idleServer_init (D P : Int) (vs : ViewServerImpl) (now : Int) (order : List String)
    (hne : idleServer D P vs now true order ≠ "") :
    ∃ st, vs.servers.lookup (idleServer D P vs now true order) = some st ∧
      0 < st.viewNum := by
  unfold idleServer at hne ⊢
  cases h : rangeFind vs.servers _ order with
  | none =>
    rw [h] at hne
    exact absurd rfl hne
  | some k =>
    obtain ⟨_, st, hst, hp⟩ := rangeFind_some h
    simp only [Bool.and_eq_true, decide_eq_true_eq, Bool.not_true, Bool.false_or] at hp
    exact ⟨st, hst, hp.2⟩

/-- The first clause of C20, which the code satisfies: in every reachable state,
whenever a `Ping` (from a non-empty server id) or a `tick` replaces the primary
by a different, non-empty server, that server is known and its recorded view
number at that moment is positive; the only exception is the bootstrap: a
`Ping(s, 0)` out of the empty view `{0, "", ""}` that makes `s` primary. It
says nothing of a step that assigns the primary role to the server that
already holds it. -/
theorem no_uninitialised_promotion (DeadPings PingInterval : Int) (vs : ViewServerImpl)
    (hr : Reachable DeadPings PingInterval vs) :
    (∀ (args : PingArgs) (now : Int) (order : List String) (vs1 : ViewServerImpl)
        (reply : PingReply), args.Me ≠ "" →
      Ping DeadPings PingInterval vs args now order = some (vs1, reply) →
      vs1.currentView.Primary ≠ vs.currentView.Primary → vs1.currentView.Primary ≠ "" →
      ∃ st, vs1.servers.lookup vs1.currentView.Primary = some st ∧
        (0 < st.viewNum ∨
          (vs.currentView = { Viewnum := 0, Primary := "", Backup := "" } ∧
            args.Me = vs1.currentView.Primary ∧ args.Viewnum = 0))) ∧
    (∀ (now : Int) (order1 order2 order3 : List String),
      (tick DeadPings PingInterval vs now order1 order2 order3).currentView.Primary
        ≠ vs.currentView.Primary →
      (tick DeadPings PingInterval vs now order1 order2 order3).currentView.Primary ≠ "" →
      ∃ st, (tick DeadPings PingInterval vs now order1 order2 order3).servers.lookup
          (tick DeadPings PingInterval vs now order1 order2 order3).currentView.Primary
            = some st ∧ 0 < st.viewNum) := by
  obtain ⟨hro, hpo⟩ := invariants_of_reachable hr
  constructor
  · intro args now order vs1 reply hme hp hchg hne
    unfold Ping at hp
    simp only at hp
    split at hp
    · exact absurd hp (by simp)
    · rename_i vs3 h3
      simp only [Option.some.injEq, Prod.mk.injEq] at hp
      obtain ⟨rfl, _⟩ := hp
      obtain ⟨hs, _, hprim⟩ := pingAdvance_primary h3
      have hs2 : (pingAck (pingBootstrap (pingRecord vs args now) args).1 args).servers
          = (pingRecord vs args now).servers := by
        unfold pingAck pingBootstrap
        split <;> split <;> try split
        all_goals rfl
      have hv2 : (pingAck (pingBootstrap (pingRecord vs args now) args).1 args).currentView
          = (pingBootstrap (pingRecord vs args now) args).1.currentView := by
        unfold pingAck
        split <;> rfl
      rcases hprim with e | ⟨st, hst, hpos⟩
      · rw [hv2] at e
        have hself : (pingRecord vs args now).servers.lookup args.Me
            = some { lastPing := now, viewNum := args.Viewnum } := by
          simp only [pingRecord]
          exact GoMap.lookup_store_self _ _ _
        unfold pingBootstrap at e
        split at e
        · rename_i hz
          split at e
          · rename_i hlen
            have e1 : vs3.currentView.Primary = args.Me := by
              rw [e]
              simp [bumpView]
            refine ⟨{ lastPing := now, viewNum := args.Viewnum }, ?_, Or.inr ⟨?_, e1.symm, hz⟩⟩
            · rw [hs, hs2, e1]
              exact hself
            · have hkme : Known (pingRecord vs args now) args.Me := by simp [Known, hself]
              have hpe : vs.currentView.Primary = "" := by
                by_contra hpn
                have hk := known_pingRecord args now (hpo.1 hpn)
                refine GoMap.len_ne_one_of_two hk hkme ?_ hlen.1
                intro e2
                exact hchg (by rw [e1, e2])
              rcases hpo.2 hpe with hv | ⟨a, b, ha, hb, hab⟩
              · exact hv
              · exact absurd hlen.1 (GoMap.len_ne_one_of_two (known_pingRecord args now ha)
                  (known_pingRecord args now hb) hab)
          · exact absurd e hchg
        · exact absurd e hchg
      · refine ⟨st, ?_, Or.inl hpos⟩
        rw [hs]
        exact hst
  · intro now o1 o2 o3 hchg hne
    unfold tick at hchg hne ⊢
    split at hchg
    · rename_i primary hprim
      split at hchg
      · rename_i backup hbk
        split at hchg
        · rename_i hack
          simp only [hprim, hbk, hack, if_true] at hne ⊢
          cases hp : expired DeadPings PingInterval now primary.lastPing <;>
            cases hb : expired DeadPings PingInterval now backup.lastPing
          · simp [tickPrimaryFailed, tickBackupFailed, tickBothFailed, hp, hb] at hchg
          · simp [tickPrimaryFailed, tickBackupFailed, tickBothFailed, hp, hb, bumpView]
              at hchg
          · by_cases hv : 0 < backup.viewNum
            · refine ⟨backup, ?_, hv⟩
              simpa [tickPrimaryFailed, tickBackupFailed, tickBothFailed, hp, hb, hv, bumpView]
                using hbk
            · simp [tickPrimaryFailed, tickBackupFailed, tickBothFailed, hp, hb, hv] at hchg
          · simp only [tickPrimaryFailed, tickBackupFailed, tickBothFailed, hp, hb,
              Bool.true_eq_false, and_false, false_and, if_false, and_self, if_true,
              bumpView, Bool.false_eq_true] at hne ⊢
            exact idleServer_init DeadPings PingInterval vs now o3 hne
        · exact absurd rfl hchg
      · exact absurd rfl hchg
    · exact absurd rfl hchg

/-- Concrete instance of `no_uninitialised_promotion`: the bootstrap
`Ping("a", 0)` out of the initial state, and
the promotion of the backup `"b"` (recorded view number 2) in the reachable
acknowledged view `{2, "a", "b"}` once `"a"` has gone silent. -/
theorem no_uninitialised_promotion_witness :
    (∃ st, GoMap.lookup [("a", (⟨0, 0⟩ : serverState))] "a" = some st ∧
      (0 < st.viewNum ∨
        (initImpl.currentView = { Viewnum := 0, Primary := "", Backup := "" } ∧
          "a" = "a" ∧ (0 : Nat) = 0))) ∧
    (∃ st, GoMap.lookup [("a", (⟨3, 2⟩ : serverState)), ("b", ⟨1000, 2⟩)] "b" = some st ∧
      (0 < st.viewNum ∨
        ((⟨2, "a", "b"⟩ : View) = { Viewnum := 0, Primary := "", Backup := "" } ∧
          "b" = "b" ∧ (2 : Nat) = 0))) :=
  ⟨(no_uninitialised_promotion 5 100 initImpl Reachable.init).1 ⟨"a", 0⟩ 0 []
      ⟨⟨1, "a", ""⟩, [("a", ⟨0, 0⟩)], false⟩ ⟨⟨1, "a", ""⟩⟩
      (by decide) (by decide) (by decide) (by decide),
    (no_uninitialised_promotion 5 100
      ⟨⟨2, "a", "b"⟩, [("a", ⟨3, 2⟩), ("b", ⟨2, 0⟩)], true⟩
      (Reachable.step ⟨⟨2, "a", "b"⟩, [("a", ⟨1, 1⟩), ("b", ⟨2, 0⟩)], false⟩ _
        (Reachable.step ⟨⟨1, "a", ""⟩, [("a", ⟨1, 1⟩)], true⟩ _
          (Reachable.step ⟨⟨1, "a", ""⟩, [("a", ⟨0, 0⟩)], false⟩ _
            (Reachable.step initImpl _ Reachable.init
              (Step.ping initImpl ⟨"a", 0⟩ 0 [] _ ⟨⟨1, "a", ""⟩⟩ (by decide) (by decide)))
            (Step.ping _ ⟨"a", 1⟩ 1 ["a"] _ ⟨⟨1, "a", ""⟩⟩ (by decide) (by decide)))
          (Step.ping _ ⟨"b", 0⟩ 2 ["a", "b"] _ ⟨⟨2, "a", "b"⟩⟩ (by decide) (by decide)))
        (Step.ping _ ⟨"a", 2⟩ 3 ["a", "b"] _ ⟨⟨2, "a", "b"⟩⟩ (by decide) (by decide)))).1
      ⟨"b", 2⟩ 1000 ["a", "b"]
      ⟨⟨3, "b", ""⟩, [("a", ⟨3, 2⟩), ("b", ⟨1000, 2⟩)], false⟩ ⟨⟨3, "b", ""⟩⟩
      (by decide) (by decide) (by decide) (by decide)⟩

end viewservice

/-! ## Replica: when `PutAppend` replays and when it applies -/

namespace pbservice

/-- C22, at the failing input: the primary `"A"` with no backup, an empty
`kvMap` and an empty at-most-once table handles `Put("k", "v")` of client 1
with request id 0. The table holds no entry for client 1, yet the map read of
line 112 yields the zero value 0, which equals the request id: the reply is
`OK`, `kvMap["k"]` is not written and the table records nothing. -/
theorem putAppend_replays_unrecorded_request :
    PBServer.PutAppend ⟨"A", ⟨[], 1, "A", "", []⟩⟩ ⟨"k", "v", ⟨1, 0, "Put"⟩⟩
        (fun _ _ => ⟨""⟩)
      = (⟨"A", ⟨[], 1, "A", "", []⟩⟩, ⟨OK⟩) ∧
    GoMap.lookup (⟨"A", ⟨[], 1, "A", "", []⟩⟩ : PBServer).impl.LastRequestProcessed 1 = none ∧
    GoMap.lookup (PBServer.PutAppend ⟨"A", ⟨[], 1, "A", "", []⟩⟩ ⟨"k", "v", ⟨1, 0, "Put"⟩⟩
        (fun _ _ => ⟨""⟩)).1.impl.kvMap "k" = none := by
  decide

/-- The part of C22 the code does satisfy: on the locally-known primary with no
backup, a request whose id differs from what the map read of line 112 yields
(the recorded entry, or 0 when the client has none) is applied: a `Put` leaves
`kvMap[key] = value`, an `Append` leaves the old value (empty if absent)
followed by the value, all other keys are unchanged, the table records the
request id, and the reply is `OK`. -/
theorem putAppend_applies (pb : PBServer) (args : PutAppendArgs)
    (call : String → ForwardPutArgs → ForwardPutReply)
    (hme : pb.me = pb.impl.Primary) (hB : pb.impl.Backup = "")
    (hnew : lastRequest pb args.Impl.ClientID ≠ args.Impl.RequestID) :
    (PBServer.PutAppend pb args call).2.Err = OK ∧
    (args.Impl.Operation = "Put" →
      (PBServer.PutAppend pb args call).1.impl.kvMap.lookup args.Key = some args.Value) ∧
    (args.Impl.Operation = "Append" →
      (PBServer.PutAppend pb args call).1.impl.kvMap.lookup args.Key
        = some ((pb.impl.kvMap.lookup args.Key).getD "" ++ args.Value)) ∧
    (∀ k, k ≠ args.Key →
      (PBServer.PutAppend pb args call).1.impl.kvMap.lookup k = pb.impl.kvMap.lookup k) ∧
    (PBServer.PutAppend pb args call).1.impl.LastRequestProcessed.lookup args.Impl.ClientID
      = some args.Impl.RequestID := by
  have hput : PBServer.PutAppend pb args call = (applyLocal pb args, { Err := OK }) := by
    unfold PBServer.PutAppend
    rw [if_neg (by simpa using hme), if_neg hnew, if_neg (by simpa using hB)]
  rw [hput]
  refine ⟨rfl, fun hop => ?_, fun hop => ?_, fun k hk => ?_, ?_⟩
  · simp only [applyLocal, hop]
    exact lookup_applyWrite_put _ _ _
  · simp only [applyLocal, hop, applyWrite]
    rw [if_neg (by decide), if_pos trivial]
    cases hl : pb.impl.kvMap.lookup args.Key with
    | none => simp [GoMap.lookup_store_self]
    | some curr => simp [GoMap.lookup_store_self]
  · simp only [applyLocal, applyWrite]
    split
    · exact GoMap.lookup_store_of_ne _ _ (Ne.symm hk)
    · split
      · split
        · exact GoMap.lookup_store_of_ne _ _ (Ne.symm hk)
        · exact GoMap.lookup_store_of_ne _ _ (Ne.symm hk)
      · rfl
  · simp only [applyLocal]
    exact GoMap.lookup_store_self _ _ _

end pbservice

/-! ## View service: the empty primary -/

namespace viewservice

theorem Ping_of_empty_primary (D P : Int) (vs : ViewServerImpl) (args : PingArgs) (now : Int)
    (order : List String) (hP : vs.currentView.Primary = "")
    (h0 : vs.servers.lookup "" = none) (h2 : ∃ a b, Known vs a ∧ Known vs b ∧ a ≠ b)
    (hme : args.Me ≠ "") :
    Ping D P vs args now order = some (pingRecord vs args now, { View := vs.currentView }) := by
  obtain ⟨a, b, ha, hb, hab⟩ := h2
  have hboot := pingBootstrap_of_two args (known_pingRecord args now ha)
    (known_pingRecord args now hb) hab
  have hack : pingAck (pingRecord vs args now) args = pingRecord vs args now := by
    unfold pingAck
    rw [if_neg]
    rintro ⟨h1, _⟩
    exact hme (h1.trans hP)
  have hl : (pingRecord vs args now).servers.lookup
      (pingRecord vs args now).currentView.Primary = none := by
    simp only [pingRecord, hP]
    rw [GoMap.lookup_store_of_ne _ _ hme]
    exact h0
  have hadv : pingAdvance D P (pingRecord vs args now) now order false
      = some (pingRecord vs args now) := by
    unfold pingAdvance
    split
    · rw [hl]
    · rfl
  simp only [Ping, hboot, hack, hadv]
  rfl

theorem tick_of_unknown_primary (D P : Int) (vs : ViewServerImpl) (now : Int)
    (o1 o2 o3 : List String) (h : vs.servers.lookup vs.currentView.Primary = none) :
    tick D P vs now o1 o2 o3 = vs := by
  unfold tick
  rw [h]

/-- C23. Empty primary is absorbing: in a state whose primary is the empty
string, in which at least two servers are known and the empty id is not known,
every `Ping` from a non-empty server id returns the unchanged view and leaves
it unchanged, every `tick` leaves the state unchanged, and so every state
reached by any sequence of such `Ping`s and `tick`s still has the same view:
no primary is ever installed again. -/
theorem empty_primary_absorbing (DeadPings PingInterval : Int) (vs : ViewServerImpl)
    (hP : vs.currentView.Primary = "") (h0 : vs.servers.lookup "" = none)
    (h2 : ∃ a b, Known vs a ∧ Known vs b ∧ a ≠ b) :
    (∀ (args : PingArgs) (now : Int) (order : List String), args.Me ≠ "" →
      ∃ vs1, Ping DeadPings PingInterval vs args now order
          = some (vs1, { View := vs.currentView }) ∧
        vs1.currentView = vs.currentView) ∧
    (∀ (now : Int) (order1 order2 order3 : List String),
      tick DeadPings PingInterval vs now order1 order2 order3 = vs) ∧
    (∀ vs1, Relation.ReflTransGen (Step DeadPings PingInterval) vs vs1 →
      vs1.currentView = vs.currentView) := by
  refine ⟨fun args now order hme => ?_, fun now o1 o2 o3 => ?_, fun vs1 hsteps => ?_⟩
  · exact ⟨_, Ping_of_empty_primary DeadPings PingInterval vs args now order hP h0 h2 hme, rfl⟩
  · exact tick_of_unknown_primary _ _ _ _ _ _ _ (by rw [hP]; exact h0)
  · have key : vs1.currentView = vs.currentView ∧ vs1.servers.lookup "" = none ∧
        ∃ a b, Known vs1 a ∧ Known vs1 b ∧ a ≠ b := by
      induction hsteps with
      | refl => exact ⟨rfl, h0, h2⟩
      | tail _ hstep ih =>
        obtain ⟨hv, hz, hk⟩ := ih
        cases hstep with
        | ping args now order _ reply hme hp =>
          rw [Ping_of_empty_primary DeadPings PingInterval _ args now order
            (by rw [hv]; exact hP) hz hk hme] at hp
          simp only [Option.some.injEq, Prod.mk.injEq] at hp
          obtain ⟨rfl, _⟩ := hp
          obtain ⟨a, b, ha, hb, hab⟩ := hk
          refine ⟨hv, ?_, a, b, known_pingRecord args now ha, known_pingRecord args now hb, hab⟩
          simp only [pingRecord]
          rw [GoMap.lookup_store_of_ne _ _ hme]
          exact hz
        | tick now o1 o2 o3 =>
          rw [tick_of_unknown_primary _ _ _ _ _ _ _ (by rw [hv, hP]; exact hz)]
          exact ⟨hv, hz, hk⟩
    exact key.1

/-- Witness for C23: the view `{3, "", ""}` with the two dead servers `"a"` and
`"b"` known, as left by `tick` when both have failed. -/
theorem empty_primary_absorbing_witness :
    (∀ (args : PingArgs) (now : Int) (order : List String), args.Me ≠ "" →
      ∃ vs1, Ping 5 100 ⟨⟨3, "", ""⟩, [("a", ⟨0, 2⟩), ("b", ⟨0, 2⟩)], false⟩ args now order
          = some (vs1, { View := ⟨3, "", ""⟩ }) ∧
        vs1.currentView = ⟨3, "", ""⟩) ∧
    (∀ (now : Int) (order1 order2 order3 : List String),
      tick 5 100 ⟨⟨3, "", ""⟩, [("a", ⟨0, 2⟩), ("b", ⟨0, 2⟩)], false⟩ now order1 order2 order3
        = ⟨⟨3, "", ""⟩, [("a", ⟨0, 2⟩), ("b", ⟨0, 2⟩)], false⟩) ∧
    (∀ vs1, Relation.ReflTransGen (Step 5 100)
        ⟨⟨3, "", ""⟩, [("a", ⟨0, 2⟩), ("b", ⟨0, 2⟩)], false⟩ vs1 →
      vs1.currentView = ⟨3, "", ""⟩) :=
  empty_primary_absorbing 5 100 ⟨⟨3, "", ""⟩, [("a", ⟨0, 2⟩), ("b", ⟨0, 2⟩)], false⟩
    rfl rfl ⟨"a", "b", rfl, rfl, by decide⟩

end viewservice

/-! ## View service: the liveness threshold -/

namespace viewservice

/-- C21 refuted as stated, at the boundary `t - lastPing = DeadPings * PingInterval`
(`500 - 0 = 5 * 100`): the backup `"b"` last heard at 0 is not treated as failed
at instant 500, neither by `Ping` nor by `tick`, and the server `"c"` last heard
at 0 is accepted as backup at instant 500, although `500 - 0 < 5 * 100` fails. -/
theorem liveness_boundary_counts_as_alive :
    ¬ ((500 : Int) - 0 < 5 * 100) ∧
    Ping 5 100 ⟨⟨2, "a", "b"⟩, [("a", ⟨400, 2⟩), ("b", ⟨0, 2⟩)], true⟩ ⟨"a", 2⟩ 500 ["a", "b"]
      = some (⟨⟨2, "a", "b"⟩, [("a", ⟨500, 2⟩), ("b", ⟨0, 2⟩)], true⟩, ⟨⟨2, "a", "b"⟩⟩) ∧
    tick 5 100 ⟨⟨2, "a", "b"⟩, [("a", ⟨400, 2⟩), ("b", ⟨0, 2⟩)], true⟩ 500
        ["a", "b"] ["a", "b"] ["a", "b"]
      = ⟨⟨2, "a", "b"⟩, [("a", ⟨400, 2⟩), ("b", ⟨0, 2⟩)], true⟩ ∧
    Ping 5 100 ⟨⟨1, "a", ""⟩, [("a", ⟨400, 1⟩), ("c", ⟨0, 0⟩)], true⟩ ⟨"a", 1⟩ 500 ["a", "c"]
      = some (⟨⟨2, "a", "c"⟩, [("a", ⟨500, 1⟩), ("c", ⟨0, 0⟩)], false⟩, ⟨⟨2, "a", "c"⟩⟩) := by
  decide

theorem expired_true_iff (D P now lp : Int) : expired D P now lp = true ↔ now - lp > D * P := by
  simp [expired]

theorem expired_false_iff (D P now lp : Int) :
    expired D P now lp = false ↔ now - lp ≤ D * P := by
  simp [expired]

theorem uintIncr_ne (n : Nat) : uintIncr n ≠ n := by
  unfold uintIncr
  omega

theorem pingBackup_fill {D P : Int} {vs vs1 : ViewServerImpl} {now : Int}
    {order : List String} {inc inc1 : Bool} (hB : vs.currentView.Backup = "")
    (hp : pingBackup D P vs now order inc = some (vs1, inc1)) :
    vs1.servers = vs.servers ∧
      (vs1.currentView.Backup = "" ∨
        ∃ st, vs.servers.lookup vs1.currentView.Backup = some st ∧
          expired D P now st.lastPing = false) := by
  unfold pingBackup at hp
  rw [if_neg (by simp [hB])] at hp
  split at hp
  · rename_i s hs
    simp only [Option.some.injEq, Prod.mk.injEq] at hp
    obtain ⟨rfl, rfl⟩ := hp
    obtain ⟨_, st, hst, hpd⟩ := rangeFind_some hs
    simp only [Bool.and_eq_true, decide_eq_true_eq, Bool.not_eq_true'] at hpd
    refine ⟨rfl, Or.inr ⟨st, ?_, hpd.2⟩⟩
    cases inc <;> simpa [bumpView] using hst
  · simp only [Option.some.injEq, Prod.mk.injEq] at hp
    obtain ⟨rfl, rfl⟩ := hp
    exact ⟨rfl, Or.inl hB⟩

/-- With an empty backup slot at entry, the rule evaluation of `Ping` leaves the
slot empty or fills it with a known server that passes the liveness test. -/
theorem pingAdvance_fill {D P : Int} {vs vs1 : ViewServerImpl} {now : Int}
    {order : List String} {inc : Bool} (hB : vs.currentView.Backup = "")
    (hp : pingAdvance D P vs now order inc = some vs1) :
    vs1.servers = vs.servers ∧
      (vs1.currentView.Backup = "" ∨
        ∃ st, vs.servers.lookup vs1.currentView.Backup = some st ∧
          expired D P now st.lastPing = false) := by
  unfold pingAdvance at hp
  split at hp
  · split at hp
    · rename_i primary _
      split at hp
      · exact absurd hp (by simp)
      · rename_i v2 i2 h2
        rw [pingPromote_of_no_backup D P vs primary now inc hB] at h2
        simp only [Option.some.injEq, Prod.mk.injEq] at h2
        obtain ⟨rfl, rfl⟩ := h2
        split at hp
        · exact absurd hp (by simp)
        · rename_i v3 i3 h3
          simp only [Option.some.injEq] at hp
          subst hp
          exact pingBackup_fill hB h3
    · simp only [Option.some.injEq] at hp
      subst hp
      exact ⟨rfl, Or.inl hB⟩
  · simp only [Option.some.injEq] at hp
    subst hp
    exact ⟨rfl, Or.inl hB⟩

theorem pingBootstrap_backup (vs : ViewServerImpl) (args : PingArgs) :
    (pingAck (pingBootstrap vs args).1 args).currentView.Backup = vs.currentView.Backup ∧
      (pingAck (pingBootstrap vs args).1 args).servers = vs.servers := by
  unfold pingAck pingBootstrap
  split <;> split <;> try split
  all_goals simp [bumpView]

/-- In an acknowledged view whose primary and backup are distinct known
servers with positive recorded view numbers, `Ping` returns, and it leaves the
view unchanged exactly when neither is dead by the test of lines 95 and 114. -/
theorem Ping_unchanged_iff (D P : Int) (vs : ViewServerImpl) (args : PingArgs) (now : Int)
    (order : List String) (p b : serverState)
    (hack : vs.acknowledged = true)
    (hPB : vs.currentView.Primary ≠ vs.currentView.Backup)
    (hB : vs.currentView.Backup ≠ "")
    (hp : (pingRecord vs args now).servers.lookup vs.currentView.Primary = some p)
    (hb : (pingRecord vs args now).servers.lookup vs.currentView.Backup = some b)
    (hpv : 0 < p.viewNum) (hbv : 0 < b.viewNum) :
    ∃ vs1 reply, Ping D P vs args now order = some (vs1, reply) ∧
      (vs1.currentView = vs.currentView ↔
        (expired D P now p.lastPing = false ∧ expired D P now b.lastPing = false)) := by
  rw [Ping_of_acknowledged D P vs args now order p (by simp [Known, hp])
    (by simp [Known, hb]) hPB (Or.inl hack) hp]
  have hB1 : ({ pingRecord vs args now with acknowledged := true } :
      ViewServerImpl).currentView.Backup ≠ "" := hB
  have hb1 : ({ pingRecord vs args now with acknowledged := true } :
      ViewServerImpl).servers.lookup
        ({ pingRecord vs args now with acknowledged := true } :
          ViewServerImpl).currentView.Backup = some b := hb
  cases hpe : expired D P now p.lastPing
  · rw [pingPromote_of_healthy _ _ _ _ _ _ hpe hpv]
    simp only
    unfold pingBackup
    rw [if_pos hB1, hb1]
    simp only
    cases hbe : expired D P now b.lastPing
    · simp only [Bool.false_eq_true, if_false]
      exact ⟨_, _, rfl, by simp [hbe, pingRecord]⟩
    · simp only [if_true]
      refine ⟨_, _, rfl, ⟨fun h => ?_, fun h => absurd h.2 (by simp)⟩⟩
      exfalso
      have h1 := congrArg View.Viewnum h
      simp only [bumpView, Bool.false_eq_true, if_false] at h1
      exact uintIncr_ne _ h1
  · have hprom : pingPromote D P { pingRecord vs args now with acknowledged := true } p now false
        = some ({ pingRecord vs args now with
                    currentView := { Viewnum := uintIncr vs.currentView.Viewnum
                                     Primary := vs.currentView.Backup, Backup := "" }
                    acknowledged := false }, true) := by
      unfold pingPromote
      rw [if_pos (Or.inl hpe), if_pos hB1, hb1]
      simp [hbv, bumpView, pingRecord]
    rw [hprom]
    simp only
    unfold pingBackup
    simp only [ne_eq, not_true_eq_false, if_false]
    generalize rangeFind _ _ order = r
    cases r with
    | none =>
      refine ⟨_, _, rfl, ⟨fun h => ?_, fun h => absurd h.1 (by simp)⟩⟩
      exact absurd (congrArg View.Viewnum h) (uintIncr_ne _)
    | some s =>
      refine ⟨_, _, rfl, ⟨fun h => ?_, fun h => absurd h.1 (by simp)⟩⟩
      have h1 := congrArg View.Viewnum h
      simp only [bumpView, if_true] at h1
      exact absurd h1 (uintIncr_ne _)

/-- With the primary and the backup both known, an initialised backup and an
acknowledged view, `tick` leaves the view unchanged exactly when neither is
dead by the test of lines 184-238. -/
theorem tick_unchanged_iff (D P : Int) (vs : ViewServerImpl) (now : Int)
    (o1 o2 o3 : List String) (p b : serverState)
    (hp : vs.servers.lookup vs.currentView.Primary = some p)
    (hb : vs.servers.lookup vs.currentView.Backup = some b)
    (hack : vs.acknowledged = true) (hbv : 0 < b.viewNum) :
    (tick D P vs now o1 o2 o3).currentView = vs.currentView ↔
      (expired D P now p.lastPing = false ∧ expired D P now b.lastPing = false) := by
  rw [tick_of_known now o1 o2 o3 hp hb hack]
  cases hpe : expired D P now p.lastPing <;> cases hbe : expired D P now b.lastPing
  · simp [tickPrimaryFailed, tickBackupFailed, tickBothFailed, hpe, hbe]
  · simp only [tickPrimaryFailed, tickBackupFailed, tickBothFailed, hpe, hbe,
      Bool.false_eq_true, false_and, and_false, if_false, and_self, if_true, bumpView,
      Bool.true_eq_false, iff_false]
    intro h
    exact absurd (congrArg View.Viewnum h) (uintIncr_ne _)
  · simp only [tickPrimaryFailed, tickBackupFailed, tickBothFailed, hpe, hbe, hbv,
      Bool.false_eq_true, false_and, and_false, if_false, and_self, if_true, bumpView,
      Bool.true_eq_false, iff_false]
    intro h
    exact absurd (congrArg View.Viewnum h) (uintIncr_ne _)
  · simp only [tickPrimaryFailed, tickBackupFailed, tickBothFailed, hpe, hbe,
      Bool.false_eq_true, false_and, and_false, if_false, and_self, if_true, bumpView,
      Bool.true_eq_false, iff_false]
    intro h
    exact absurd (congrArg View.Viewnum h) (uintIncr_ne _)

theorem idleServer_alive (D P : Int) (vs : ViewServerImpl) (now : Int) (needInit : Bool)
    (order : List String) (hne : idleServer D P vs now needInit order ≠ "") :
    ∃ st, vs.servers.lookup (idleServer D P vs now needInit order) = some st ∧
      expired D P now st.lastPing = false := by
  unfold idleServer at hne ⊢
  cases h : rangeFind vs.servers _ order with
  | none =>
    rw [h] at hne
    exact absurd rfl hne
  | some k =>
    obtain ⟨_, st, hst, hp⟩ := rangeFind_some h
    simp only [Bool.and_eq_true, decide_eq_true_eq, Bool.not_eq_true'] at hp
    exact ⟨st, hst, hp.1.2⟩

theorem idleServer_found (D P : Int) (vs : ViewServerImpl) (now : Int) (needInit : Bool)
    (order : List String) (k : String) (st : serverState) (hk : k ∈ order)
    (hst : vs.servers.lookup k = some st) (hkp : k ≠ vs.currentView.Primary)
    (hkb : k ≠ vs.currentView.Backup) (halive : expired D P now st.lastPing = false)
    (hinit : needInit = true → 0 < st.viewNum) :
    ∃ st1, vs.servers.lookup (idleServer D P vs now needInit order) = some st1 ∧
      expired D P now st1.lastPing = false := by
  obtain ⟨k1, hk1⟩ := rangeFind_isSome
    (p := fun server st => decide (server ≠ vs.currentView.Primary) &&
      decide (server ≠ vs.currentView.Backup) &&
      !expired D P now st.lastPing && (!needInit || decide (st.viewNum > 0)))
    hk hst (by cases needInit <;> simp_all)
  obtain ⟨_, st1, hst1, hp1⟩ := rangeFind_some hk1
  simp only [Bool.and_eq_true, decide_eq_true_eq, Bool.not_eq_true'] at hp1
  refine ⟨st1, ?_, hp1.1.2⟩
  unfold idleServer
  rw [hk1]
  exact hst1

/-- C21 as amended: every liveness test of `Ping` and `tick` agrees with
`alive(s, t)` iff `t - lastPing(s) ≤ DeadPings * PingInterval`. The test is
`t - lastPing > DeadPings * PingInterval` for a dead server; with primary and
backup known, distinct and initialised in an acknowledged view, `Ping` and
`tick` leave the view unchanged exactly when both are within the window
(boundary included); a server installed as backup by `Ping` or found as idle
server by `tick` is within the window, and a known candidate within the window
makes `Ping` install a backup and makes the idle search of `tick` succeed. -/
theorem liveness_threshold (DeadPings PingInterval now : Int) :
    (∀ lp : Int,
      (expired DeadPings PingInterval now lp = true ↔ now - lp > DeadPings * PingInterval) ∧
      (expired DeadPings PingInterval now lp = false ↔
        now - lp ≤ DeadPings * PingInterval)) ∧
    (∀ (vs : ViewServerImpl) (args : PingArgs) (order : List String) (p b : serverState),
      vs.acknowledged = true → vs.currentView.Primary ≠ vs.currentView.Backup →
      vs.currentView.Backup ≠ "" →
      (pingRecord vs args now).servers.lookup vs.currentView.Primary = some p →
      (pingRecord vs args now).servers.lookup vs.currentView.Backup = some b →
      0 < p.viewNum → 0 < b.viewNum →
      ∃ vs1 reply, Ping DeadPings PingInterval vs args now order = some (vs1, reply) ∧
        (vs1.currentView = vs.currentView ↔
          (now - p.lastPing ≤ DeadPings * PingInterval ∧
            now - b.lastPing ≤ DeadPings * PingInterval))) ∧
    (∀ (vs : ViewServerImpl) (order1 order2 order3 : List String) (p b : serverState),
      vs.servers.lookup vs.currentView.Primary = some p →
      vs.servers.lookup vs.currentView.Backup = some b →
      vs.acknowledged = true → 0 < b.viewNum →
      ((tick DeadPings PingInterval vs now order1 order2 order3).currentView
          = vs.currentView ↔
        (now - p.lastPing ≤ DeadPings * PingInterval ∧
          now - b.lastPing ≤ DeadPings * PingInterval))) ∧
    (∀ (vs : ViewServerImpl) (args : PingArgs) (order : List String) (vs1 : ViewServerImpl)
        (reply : PingReply), vs.currentView.Backup = "" →
      Ping DeadPings PingInterval vs args now order = some (vs1, reply) →
      vs1.currentView.Backup ≠ "" →
      ∃ st, vs1.servers.lookup vs1.currentView.Backup = some st ∧
        now - st.lastPing ≤ DeadPings * PingInterval) ∧
    (∀ (vs : ViewServerImpl) (args : PingArgs) (order : List String) (p st : serverState)
        (k : String), vs.acknowledged = true → vs.currentView.Backup = "" →
      (pingRecord vs args now).servers.lookup vs.currentView.Primary = some p →
      k ∈ order → (pingRecord vs args now).servers.lookup k = some st →
      k ≠ vs.currentView.Primary → now - st.lastPing ≤ DeadPings * PingInterval →
      ∃ vs1 reply st1, Ping DeadPings PingInterval vs args now order = some (vs1, reply) ∧
        vs1.currentView.Viewnum = (vs.currentView.Viewnum + 1) % 2 ^ 64 ∧
        vs1.currentView.Backup ≠ vs.currentView.Primary ∧
        vs1.servers.lookup vs1.currentView.Backup = some st1 ∧
        now - st1.lastPing ≤ DeadPings * PingInterval) ∧
    (∀ (vs : ViewServerImpl) (needInit : Bool) (order : List String),
      idleServer DeadPings PingInterval vs now needInit order ≠ "" →
      ∃ st, vs.servers.lookup (idleServer DeadPings PingInterval vs now needInit order)
          = some st ∧ now - st.lastPing ≤ DeadPings * PingInterval) ∧
    (∀ (vs : ViewServerImpl) (needInit : Bool) (order : List String) (k : String)
        (st : serverState), k ∈ order → vs.servers.lookup k = some st →
      k ≠ vs.currentView.Primary → k ≠ vs.currentView.Backup →
      now - st.lastPing ≤ DeadPings * PingInterval → (needInit = true → 0 < st.viewNum) →
      ∃ st1, vs.servers.lookup (idleServer DeadPings PingInterval vs now needInit order)
          = some st1 ∧ now - st1.lastPing ≤ DeadPings * PingInterval) := by
  refine ⟨fun lp => ⟨expired_true_iff _ _ _ _, expired_false_iff _ _ _ _⟩, ?_, ?_, ?_, ?_, ?_, ?_⟩
  · intro vs args order p b hack hPB hB hp hb hpv hbv
    obtain ⟨vs1, reply, h1, h2⟩ :=
      Ping_unchanged_iff DeadPings PingInterval vs args now order p b hack hPB hB hp hb hpv hbv
    refine ⟨vs1, reply, h1, ?_⟩
    rw [h2, expired_false_iff, expired_false_iff]
  · intro vs o1 o2 o3 p b hp hb hack hbv
    rw [tick_unchanged_iff DeadPings PingInterval vs now o1 o2 o3 p b hp hb hack hbv,
      expired_false_iff, expired_false_iff]
  · intro vs args order vs1 reply hB hping hne
    unfold Ping at hping
    simp only at hping
    split at hping
    · exact absurd hping (by simp)
    · rename_i vs3 h3
      simp only [Option.some.injEq, Prod.mk.injEq] at hping
      obtain ⟨rfl, _⟩ := hping
      obtain ⟨hbk, hsv⟩ := pingBootstrap_backup (pingRecord vs args now) args
      obtain ⟨hs, hfill⟩ := pingAdvance_fill (hbk.trans hB) h3
      rcases hfill with e | ⟨st, hst, hal⟩
      · exact absurd e hne
      · refine ⟨st, ?_, (expired_false_iff _ _ _ _).mp hal⟩
        rw [hs]
        exact hst
  · intro vs args order p st k hack hB hp hk hst hkp hwin
    have hal := (expired_false_iff DeadPings PingInterval now st.lastPing).mpr hwin
    rw [Ping_of_acknowledged DeadPings PingInterval vs args now order p
      (by simp [Known, hp]) (by simp [Known, hst]) (Ne.symm hkp) (Or.inl hack) hp,
      pingPromote_of_no_backup _ _ _ _ _ _ (by simpa [pingRecord] using hB)]
    simp only
    unfold pingBackup
    rw [if_neg (by simp [pingRecord, hB])]
    generalize hr : rangeFind _ _ order = r
    cases r with
    | none =>
      exfalso
      obtain ⟨k1, hk1⟩ := rangeFind_isSome
        (p := fun s sState => decide (s ≠ vs.currentView.Primary) &&
          !expired DeadPings PingInterval now sState.lastPing)
        hk hst (by simp [hkp, hal])
      simp only [pingRecord] at hr hk1
      rw [hk1] at hr
      exact absurd hr (by simp)
    | some s =>
      obtain ⟨_, st1, hst1, hpd⟩ := rangeFind_some hr
      simp only [Bool.and_eq_true, decide_eq_true_eq, Bool.not_eq_true'] at hpd
      exact ⟨_, _, st1, rfl, rfl, hpd.1, hst1, (expired_false_iff _ _ _ _).mp hpd.2⟩
  · intro vs needInit order hne
    obtain ⟨st, hst, hal⟩ := idleServer_alive DeadPings PingInterval vs now needInit order hne
    exact ⟨st, hst, (expired_false_iff _ _ _ _).mp hal⟩
  · intro vs needInit order k st hk hst hkp hkb hwin hinit
    obtain ⟨st1, hst1, hal⟩ := idleServer_found DeadPings PingInterval vs now needInit order
      k st hk hst hkp hkb ((expired_false_iff _ _ _ _).mpr hwin) hinit
    exact ⟨st1, hst1, (expired_false_iff _ _ _ _).mp hal⟩

/-- Witness for C21 as amended, at the boundary `500 - 0 = 5 * 100`: with the
backup `"b"` last heard at 0, `Ping` at instant 500 leaves `{2, "a", "b"}`
unchanged exactly because both servers are within the window; and the
candidate `"c"` last heard at 0 makes `Ping` at instant 500 install a backup
that is within the window. -/
theorem liveness_threshold_witness :
    (∃ vs1 reply,
      Ping 5 100 ⟨⟨2, "a", "b"⟩, [("a", ⟨400, 2⟩), ("b", ⟨0, 2⟩)], true⟩ ⟨"a", 2⟩ 500
          ["a", "b"] = some (vs1, reply) ∧
        (vs1.currentView = ⟨2, "a", "b"⟩ ↔
          ((500 : Int) - 500 ≤ 5 * 100 ∧ (500 : Int) - 0 ≤ 5 * 100))) ∧
    (∃ vs1 reply st1,
      Ping 5 100 ⟨⟨1, "a", ""⟩, [("a", ⟨400, 1⟩), ("c", ⟨0, 0⟩)], true⟩ ⟨"a", 1⟩ 500
          ["a", "c"] = some (vs1, reply) ∧
        vs1.currentView.Viewnum = (1 + 1) % 2 ^ 64 ∧
        vs1.currentView.Backup ≠ "a" ∧
        vs1.servers.lookup vs1.currentView.Backup = some st1 ∧
        (500 : Int) - st1.lastPing ≤ 5 * 100) :=
  ⟨(liveness_threshold 5 100 500).2.1
      ⟨⟨2, "a", "b"⟩, [("a", ⟨400, 2⟩), ("b", ⟨0, 2⟩)], true⟩ ⟨"a", 2⟩ ["a", "b"]
      ⟨500, 2⟩ ⟨0, 2⟩ rfl (by decide) (by decide) (by decide) (by decide)
      (by decide) (by decide),
    (liveness_threshold 5 100 500).2.2.2.2.1
      ⟨⟨1, "a", ""⟩, [("a", ⟨400, 1⟩), ("c", ⟨0, 0⟩)], true⟩ ⟨"a", 1⟩ ["a", "c"]
      ⟨500, 1⟩ ⟨0, 0⟩ "c" rfl rfl (by decide) (by decide) (by decide) (by decide)
      (by decide)⟩

end viewservice

/-! ## View service: the bootstrap outside the empty view -/

namespace viewservice

/-- C20, at the failing input: the state with the acknowledged view
`{1, "a", ""}` in which `"a"` is the only known server is reachable (by the
pings `("a", 0)` and `("a", 1)`) and its view is not the empty view; there
`Ping("a", 0)` runs the assignment of line 73 again and issues the new view
`{2, "a", ""}`, whose primary `"a"` has the recorded view number 0. -/
theorem bootstrap_assigns_outside_empty_view :
    Reachable 5 100 ⟨⟨1, "a", ""⟩, [("a", ⟨1, 1⟩)], true⟩ ∧
    (⟨1, "a", ""⟩ : View) ≠ ⟨0, "", ""⟩ ∧
    Ping 5 100 ⟨⟨1, "a", ""⟩, [("a", ⟨1, 1⟩)], true⟩ ⟨"a", 0⟩ 2 ["a"]
      = some (⟨⟨2, "a", ""⟩, [("a", ⟨2, 0⟩)], false⟩, ⟨⟨2, "a", ""⟩⟩) ∧
    GoMap.lookup [("a", (⟨2, 0⟩ : serverState))] "a" = some ⟨2, 0⟩ ∧
    (pingBootstrap (pingRecord ⟨⟨1, "a", ""⟩, [("a", ⟨1, 1⟩)], true⟩ ⟨"a", 0⟩ 2)
        ⟨"a", 0⟩).2 = true :=
  ⟨Reachable.step ⟨⟨1, "a", ""⟩, [("a", ⟨0, 0⟩)], false⟩ _
      (Reachable.step initImpl _ Reachable.init
        (Step.ping initImpl ⟨"a", 0⟩ 0 [] _ ⟨⟨1, "a", ""⟩⟩ (by decide) (by decide)))
      (Step.ping _ ⟨"a", 1⟩ 1 ["a"] _ ⟨⟨1, "a", ""⟩⟩ (by decide) (by decide)),
    by decide, by decide, by decide, by decide⟩

end viewservice
